import Mathlib

/-
Shallow embedding of the match state machine of game_manager.py.

Modelling conventions:
* Python dicts (insertion ordered, string keyed) are association lists
  `List (String × α)`; assignment to an existing key updates in place,
  assignment to a fresh key appends at the end, `del` removes the entry.
* Timestamps (`time.time()`) are integers (whole seconds); `int(elapsed)`
  is then the identity.  Python's truthiness test `if self.timer_start_time`
  is `some st` with `st ≠ 0`.
* Statuses are an enumeration standing for the four status strings
  "WAITING_FOR_PLAYERS" (Lobby), "IN_PROGRESS" (ClueRounds), "VOTING",
  "FINISHED".
* Operations that can raise an uncaught exception (KeyError / IndexError /
  AttributeError / TypeError) return `Option`; `none` is the fault.
* The outcomes of `random.choice` / `random.shuffle` are passed in as
  parameters; theorems assume of them exactly what the random library
  guarantees (a permutation of the keys, a member of the list).
-/

namespace ImpostorGame

/-! ### Association lists: the embedding of Python string-keyed dicts -/

def alGet {α : Type} (l : List (String × α)) (k : String) : Option α :=
  (l.find? (fun kv => kv.1 = k)).map (·.2)

def alHas {α : Type} (l : List (String × α)) (k : String) : Bool :=
  (alGet l k).isSome

def alSet {α : Type} (l : List (String × α)) (k : String) (v : α) :
    List (String × α) :=
  if alHas l k then l.map (fun kv => if kv.1 = k then (k, v) else kv)
  else l ++ [(k, v)]

def alKeys {α : Type} (l : List (String × α)) : List String := l.map (·.1)

def alErase {α : Type} (l : List (String × α)) (k : String) :
    List (String × α) :=
  l.filter (fun kv => ¬ kv.1 = k)

/-- Python list indexing `l[i]`: nonnegative indexes from the front,
negative indexes from the back, out of range raises (here: `none`). -/
def pyIndex {α : Type} (l : List α) (i : Int) : Option α :=
  if 0 ≤ i then l.get? i.toNat
  else if (-i).toNat ≤ l.length then l.get? (l.length - (-i).toNat) else none

/-- Python `str.upper()` (character-wise, as for the ASCII fragment). -/
def pyUpper (s : String) : String := ⟨s.data.map Char.toUpper⟩

/-- Python `str.strip()`: drop leading and trailing whitespace. -/
def pyStrip (s : String) : String :=
  ⟨((s.data.dropWhile Char.isWhitespace).reverse.dropWhile Char.isWhitespace).reverse⟩

/-- Helper for `pySplit`: walk the characters, `acc` holding the current
token reversed. -/
def pySplitAux : List Char → List Char → List String
  | [], acc => if acc.isEmpty then [] else [String.mk acc.reverse]
  | c :: rest, acc =>
    if c.isWhitespace then
      if acc.isEmpty then pySplitAux rest []
      else String.mk acc.reverse :: pySplitAux rest []
    else pySplitAux rest (c :: acc)

/-- Python `str.split()` with no argument: split on whitespace runs,
dropping empty pieces. -/
def pySplit (s : String) : List String := pySplitAux s.data []

/-! ### Data model -/

def MIN_PLAYERS : Nat := 3

/-- One entry of the configured word-pair list
(`{"inocente": ..., "impostor": ...}`). -/
structure WordPair where
  inocente : String
  impostor : String
deriving DecidableEq, Repr

/-- `GameConfig`: clue_time, vote_time, rounds_per_player (Python ints). -/
structure GameConfig where
  clue_time : Int := 60
  vote_time : Int := 90
  rounds_per_player : Int := 1
deriving DecidableEq, Repr

/-- `Player`: per-participant mutable state. -/
structure Player where
  id : String
  name : String
  role : Option String := none
  word : Option String := none
  has_given_clue : Bool := false
  has_voted : Bool := false
deriving DecidableEq, Repr

/-- `Player.to_public_dict`: the `{id, name}` projection. -/
structure PublicPlayer where
  id : String
  name : String
deriving DecidableEq, Repr

def toPublicDict (p : Player) : PublicPlayer := ⟨p.id, p.name⟩

/-- One clue-log entry `{"player_name": ..., "clue": ...}`. -/
structure ClueEntry where
  player_name : String
  clue : String
deriving DecidableEq, Repr

/-- The dict stored in `self.results` by `process_votes`. -/
structure GameResults where
  winner : String
  message : String
  impostor_name : String
  real_word : String
  fake_word : String
  all_clues : List ClueEntry
  votes_tally : List (String × Nat)
deriving DecidableEq, Repr

/-- The four values taken by the Python status string:
`waitingForPlayers` = "WAITING_FOR_PLAYERS" (the spec's Lobby),
`inProgress` = "IN_PROGRESS" (ClueRounds), `voting` = "VOTING",
`finished` = "FINISHED". -/
inductive GameStatus where
  | waitingForPlayers
  | inProgress
  | voting
  | finished
deriving DecidableEq, Repr

/-- The state held by one `Game` object. -/
structure Game where
  game_id : String
  players : List (String × Player)
  host_id : String
  words : List WordPair
  config : GameConfig
  status : GameStatus := .waitingForPlayers
  impostor_id : Option String := none
  word_pair : Option WordPair := none
  current_round : Int := 0
  current_turn_index : Int := -1
  players_turn_order : List String := []
  clues : List ClueEntry := []
  votes : List (String × String) := []
  timer_start_time : Option Int := none
  timer_duration : Int := 0
  timer_paused : Bool := false
  results : Option GameResults := none
deriving DecidableEq, Repr

/-- `Game.__init__` (the uuid is passed in as `game_id`). -/
def mkGame (game_id host_id host_name : String) (words : List WordPair)
    (config : GameConfig) : Game :=
  { game_id := game_id
    players := [(host_id, { id := host_id, name := host_name })]
    host_id := host_id
    words := words
    config := config }

/-- The abstention sentinel written into `votes` by `process_votes`. -/
def ABSTAIN : String := "ABSTENÇÃO"

/-! ### Operations -/

/-- `Game.add_player`. -/
def addPlayer (g : Game) (player_id name : String) : Bool × Game :=
  if g.status ≠ .waitingForPlayers ∨ alHas g.players player_id then (false, g)
  else (true, { g with
    players := alSet g.players player_id { id := player_id, name := name } })

/-- `Game.remove_player`. -/
def removePlayer (g : Game) (player_id : String) : Bool × Game :=
  if ¬ alHas g.players player_id then (false, g)
  else if g.status ≠ .waitingForPlayers ∧ player_id ≠ g.host_id then (false, g)
  else (true, { g with players := alErase g.players player_id })

/-- The common tail of `Game._start_next_player_turn`: arm the clue timer and
reset the current seat's `has_given_clue` flag.  Faults (`none`) when the
turn-order index is out of range or the seat id is no longer a player.
(The timer writes commute with the seat reads, so both are folded into one
record update.) -/
def armClueTurn (g : Game) (now : Int) : Option Game :=
  match pyIndex g.players_turn_order g.current_turn_index with
  | none => none
  | some pid =>
    match alGet g.players pid with
    | none => none
    | some p =>
      some { g with
        status := .inProgress
        timer_duration := g.config.clue_time
        timer_start_time := some now
        players := alSet g.players pid { p with has_given_clue := false } }

/-- `Game._start_next_player_turn` (`now` is the `time.time()` value). -/
def startNextPlayerTurn (g : Game) (now : Int) : Option Game :=
  if (g.players_turn_order.length : Int) ≤ g.current_turn_index + 1 then
    if g.config.rounds_per_player < g.current_round + 1 then
      some { g with
        current_round := g.current_round + 1
        current_turn_index := 0
        status := .voting
        timer_duration := g.config.vote_time
        timer_start_time := some now }
    else armClueTurn { g with
      current_round := g.current_round + 1, current_turn_index := 0 } now
  else armClueTurn { g with current_turn_index := g.current_turn_index + 1 } now

/-- The `{"word": ..., "role": ...}` record returned per player by
`start_game` (and by `get_private_player_data`). -/
structure PrivData where
  word : String
  role : String
deriving DecidableEq, Repr

/-- The per-player mutation of the role-assignment loop of
`Game.start_game`. -/
def assignP (p : Player) (pid imp : String) (wp : WordPair) : Player :=
  if pid = imp then { p with role := some "IMPOSTOR", word := some wp.impostor }
  else { p with role := some "INOCENTE", word := some wp.inocente }

/-- The role/word assignment loop of `Game.start_game`: walk `order`,
mutate each player, and record the private data in order. -/
def assignRoles : List String → List (String × Player) → WordPair → String →
    Option (List (String × Player) × List (String × PrivData))
  | [], players, _, _ => some (players, [])
  | pid :: rest, players, wp, imp =>
    match alGet players pid with
    | none => none
    | some p =>
      match assignRoles rest (alSet players pid (assignP p pid imp wp)) wp imp with
      | none => none
      | some (ps, priv) =>
        some (ps, (pid, { word := if pid = imp then wp.impostor else wp.inocente
                          role := if pid = imp then "IMPOSTOR" else "INOCENTE" }) :: priv)

inductive StartResult where
  | error (msg : String)
  | success (private_words_data : List (String × PrivData))
deriving DecidableEq, Repr

/-- `Game.start_game`.  `wp` is the outcome of `random.choice(self.words)`,
`order` the outcome of shuffling `list(self.players.keys())`, `imp` the
outcome of `random.choice(order)`. -/
def startGame (g : Game) (wp : WordPair) (order : List String) (imp : String)
    (now : Int) : Option (StartResult × Game) :=
  if g.players.length < MIN_PLAYERS then
    some (.error "Requer no mínimo 3 jogadores.", g)
  else if g.status ≠ .waitingForPlayers then
    some (.error "O jogo já começou ou está em outro estado.", g)
  else
    match assignRoles order g.players wp imp with
    | none => none
    | some (players', priv) =>
      match startNextPlayerTurn { g with
          status := .inProgress
          word_pair := some wp
          players_turn_order := order
          impostor_id := some imp
          players := players'
          current_round := 1
          current_turn_index := -1 } now with
      | none => none
      | some g3 => some (.success priv, g3)

/-- The secret-word comparison of `submit_clue`
(`self.word_pair and (clue_upper == ... or clue_upper == ...)`). -/
def wordMatch (wpo : Option WordPair) (clue_upper : String) : Bool :=
  match wpo with
  | none => false
  | some wp => clue_upper = pyUpper wp.inocente ∨ clue_upper = pyUpper wp.impostor

inductive ClueResult where
  | error (msg : String)
  | success
deriving DecidableEq, Repr

/-- `Game.submit_clue`. -/
def submitClue (g : Game) (player_id clue : String) (now : Int) :
    Option (ClueResult × Game) :=
  if g.status ≠ .inProgress then some (.error "Não é fase de dar pistas.", g)
  else
    match pyIndex g.players_turn_order g.current_turn_index with
    | none => none
    | some current_player_id =>
      if player_id ≠ current_player_id then some (.error "Não é sua vez.", g)
      else
        match alGet g.players player_id with
        | none => none
        | some player =>
          if player.has_given_clue then
            some (.error "Você já deu sua pista nesta rodada.", g)
          else if pyStrip (pyUpper clue) = "" ∨ 1 < (pySplit (pyStrip (pyUpper clue))).length then
            some (.error "A pista deve ser uma palavra única.", g)
          else if wordMatch g.word_pair (pyStrip (pyUpper clue)) then
            some (.error "A pista não pode ser a palavra secreta.", g)
          else
            (startNextPlayerTurn { g with
              clues := g.clues ++
                [{ player_name := player.name, clue := pyStrip (pyUpper clue) }]
              players := alSet g.players player_id
                { player with has_given_clue := true } } now).map
              (fun g2 => (.success, g2))

/-- The abstention fill-in loop at the top of `process_votes`. -/
def fillVotes (players : List (String × Player)) (votes : List (String × String)) :
    List (String × String) :=
  players.foldl (fun vs kp => if alHas vs kp.1 then vs else vs ++ [(kp.1, ABSTAIN)]) votes

/-- One step of `collections.Counter`: count a value. -/
def counterAdd (acc : List (String × Nat)) (v : String) : List (String × Nat) :=
  match alGet acc v with
  | some c => alSet acc v (c + 1)
  | none => acc ++ [(v, 1)]

/-- `Counter(values)`: keys in order of first occurrence. -/
def mkCounter (vals : List String) : List (String × Nat) :=
  vals.foldl counterAdd []

/-- Stable insertion, by count descending (earlier elements of the original
list stay in front of later ones with an equal count, as in
`Counter.most_common`). -/
def insByCountDesc (x : String × Nat) : List (String × Nat) → List (String × Nat)
  | [] => [x]
  | y :: ys => if y.2 ≤ x.2 then x :: y :: ys else y :: insByCountDesc x ys

/-- `Counter.most_common()`: entries sorted by count descending, stably. -/
def mostCommon (l : List (String × Nat)) : List (String × Nat) :=
  l.foldr insByCountDesc []

/-- The name-keyed `votes_tally` dict comprehension of `process_votes`;
faults when a non-abstention tally key is not a current player. -/
def tallyNames (players : List (String × Player)) :
    List (String × Nat) → List (String × Nat) → Option (List (String × Nat))
  | [], acc => some acc
  | (k, v) :: rest, acc =>
    if k = ABSTAIN then tallyNames players rest (alSet acc ABSTAIN v)
    else
      match alGet players k with
      | none => none
      | some p => tallyNames players rest (alSet acc p.name v)

/-- The `self.players[self.impostor_id]` lookup of `process_votes`
(`none` is the KeyError raised when the id is unset or not a player). -/
def impostorLookup (players : List (String × Player)) (impostor_id : Option String) :
    Option Player :=
  match impostor_id with
  | none => none
  | some i => alGet players i

/-- The winner/message selection chain of `process_votes` (the body between
the tally and the construction of `self.results`), as a function of the
already-filled vote counter. -/
def voteWinnerMessage (players : List (String × Player)) (impostor_id : Option String)
    (vote_counts : List (String × Nat)) : Option (String × String) :=
  if vote_counts = [] ∨ (vote_counts.length = 1 ∧ alHas vote_counts ABSTAIN) then
    (impostorLookup players impostor_id).map (fun ip =>
      ("IMPOSTOR", "Ninguém votou ou todos se abstiveram! O Impostor (" ++ ip.name ++ ") escapou."))
  else
    match (mostCommon vote_counts).filter (fun it => it.1 ≠ ABSTAIN) with
    | [] =>
      (impostorLookup players impostor_id).map (fun ip =>
        ("IMPOSTOR", "Ninguém votou! O Impostor (" ++ ip.name ++ ") escapou."))
    | (most_voted_id, count) :: rest =>
      match alGet players most_voted_id with
      | none => none
      | some mv =>
        if 1 < (((most_voted_id, count) :: rest).filter (fun it => it.2 = count)).length then
          (impostorLookup players impostor_id).map (fun ip =>
            ("IMPOSTOR", "Empate na votação! O Impostor (" ++ ip.name ++ ") escapou."))
        else if impostor_id = some most_voted_id then
          some ("INOCENTES", "SUCESSO! " ++ mv.name ++ " foi eliminado e ERA o Impostor! Inocentes vencem.")
        else
          (impostorLookup players impostor_id).map (fun ip =>
            ("IMPOSTOR", "FRACASSO! " ++ mv.name ++ " foi eliminado, mas era INOCENTE. O Impostor (" ++ ip.name ++ ") venceu."))

/-- The tail of `process_votes` after the state mutations at its top:
compute the tally, pick winner and message, and build `self.results`.
`g1` is the state with status/timer/votes already updated. -/
def processVotesAux (g1 : Game) : Option (GameResults × Game) :=
  match voteWinnerMessage g1.players g1.impostor_id (mkCounter (g1.votes.map (·.2))),
      impostorLookup g1.players g1.impostor_id, g1.word_pair,
      tallyNames g1.players (mkCounter (g1.votes.map (·.2))) [] with
  | some wm, some ip, some wp, some vt =>
    let res : GameResults :=
      { winner := wm.1, message := wm.2, impostor_name := ip.name
        real_word := wp.inocente, fake_word := wp.impostor
        all_clues := g1.clues, votes_tally := vt }
    some (res, { g1 with results := some res })
  | _, _, _, _ => none

/-- `Game.process_votes`.  `none` is an uncaught exception (a lookup of a
missing player, or an unset word pair). -/
def processVotes (g : Game) : Option (GameResults × Game) :=
  processVotesAux { g with
    status := .finished
    timer_paused := true
    votes := fillVotes g.players g.votes }

inductive VoteResult where
  | error (msg : String)
  | success (votos_restantes : Int)
  | gameOver (results : GameResults)
deriving DecidableEq, Repr

/-- `Game.submit_vote`. -/
def submitVote (g : Game) (voter_id voted_id : String) :
    Option (VoteResult × Game) :=
  if g.status ≠ .voting then some (.error "A votação não está em andamento.", g)
  else if ¬ alHas g.players voter_id ∨ ¬ alHas g.players voted_id then
    some (.error "Jogador votante ou votado inválido.", g)
  else if voter_id = voted_id then
    some (.error "Você não pode votar em si mesmo.", g)
  else
    match alGet g.players voter_id with
    | none => none
    | some player =>
      if player.has_voted then some (.error "Você já votou.", g)
      else if (alSet g.votes voter_id voted_id).length =
          (alSet g.players voter_id { player with has_voted := true }).length then
        (processVotes { g with
          votes := alSet g.votes voter_id voted_id
          players := alSet g.players voter_id { player with has_voted := true } }).map
          (fun rg => (.gameOver rg.1, rg.2))
      else
        some (.success (((alSet g.players voter_id
              { player with has_voted := true }).length : Int) -
            ((alSet g.votes voter_id voted_id).length : Int)),
          { g with
            votes := alSet g.votes voter_id voted_id
            players := alSet g.players voter_id { player with has_voted := true } })

inductive TimerEvent where
  | turnSkipped
  | gameOver (results : GameResults)
deriving DecidableEq, Repr

/-- `Game.check_timer` (`now` is the `time.time()` value). -/
def checkTimer (g : Game) (now : Int) : Option (Option TimerEvent × Game) :=
  match g.timer_start_time with
  | none => some (none, g)
  | some st =>
    if st ≠ 0 ∧ g.timer_paused = false then
      if g.timer_duration ≤ now - st then
        if g.status = .inProgress then
          match pyIndex g.players_turn_order g.current_turn_index with
          | none => none
          | some pid =>
            match alGet g.players pid with
            | none => none
            | some p =>
              let g1 : Game :=
                if p.has_given_clue then g
                else { g with
                  clues := g.clues ++ [{ player_name := p.name, clue := "(Pista Perdida - Tempo Esgotado)" }]
                  players := alSet g.players pid { p with has_given_clue := true } }
              (startNextPlayerTurn g1 now).map (fun g2 => (some .turnSkipped, g2))
        else if g.status = .voting then
          (processVotes g).map (fun rg => (some (.gameOver rg.1), rg.2))
        else some (none, g)
      else some (none, g)
    else some (none, g)

/-- The snapshot dict built by `Game.get_public_state`. -/
structure PublicState where
  id : String
  status : GameStatus
  players : List PublicPlayer
  player_count : Nat
  min_players : Nat
  clue_time : Int
  vote_time : Int
  rounds_per_player : Int
  clues : List ClueEntry
  current_round : Int
  current_turn : Option String
  current_player_id : Option String
  timer : Int
  total_players_to_vote : Nat
  votes_count : Nat
  results : Option GameResults
deriving DecidableEq, Repr

/-- `Game.get_public_state` (the requester argument is never used by the
source; `none` is an uncaught exception while computing the current seat). -/
def getPublicState (g : Game) (requester_id : Option String) (now : Int) :
    Option PublicState :=
  let cond := g.status = .inProgress ∧ g.players_turn_order ≠ [] ∧ 0 ≤ g.current_turn_index
  let cpOpt : Option (Option String × Option String) :=
    if cond then
      match pyIndex g.players_turn_order g.current_turn_index with
      | none => none
      | some pid =>
        match alGet g.players pid with
        | none => none
        | some p => some (some p.name, some pid)
    else some (none, none)
  match cpOpt with
  | none => none
  | some cp =>
    let remaining : Int :=
      match g.timer_start_time with
      | none => 0
      | some st =>
        if st ≠ 0 ∧ g.timer_paused = false then
          max 0 (g.timer_duration - (now - st))
        else 0
    some
      { id := g.game_id
        status := g.status
        players := g.players.map (fun kp => toPublicDict kp.2)
        player_count := g.players.length
        min_players := MIN_PLAYERS
        clue_time := g.config.clue_time
        vote_time := g.config.vote_time
        rounds_per_player := g.config.rounds_per_player
        clues := g.clues
        current_round := g.current_round
        current_turn := cp.1
        current_player_id := cp.2
        timer := remaining
        total_players_to_vote := if g.status = .voting then g.players.length else 0
        votes_count := g.votes.length
        results := if g.status = .finished then g.results else none }

/-! ### Association-list lemmas -/

theorem alGet_nil {α : Type} (k : String) : alGet ([] : List (String × α)) k = none := rfl

theorem alGet_cons {α : Type} (kv : String × α) (l : List (String × α)) (k : String) :
    alGet (kv :: l) k = if kv.1 = k then some kv.2 else alGet l k := by
  by_cases h : kv.1 = k <;> simp [alGet, List.find?_cons, h]

theorem alGet_eq_none_iff {α : Type} (l : List (String × α)) (k : String) :
    alGet l k = none ↔ k ∉ alKeys l := by
  induction l with
  | nil => simp [alGet_nil, alKeys]
  | cons kv rest ih =>
    rw [alGet_cons]
    by_cases h : kv.1 = k
    · simp only [h, if_true, alKeys, List.map_cons, List.mem_cons]
      simp
    · simp only [h, if_false, alKeys, List.map_cons, List.mem_cons, ih, alKeys]
      constructor
      · intro hn hor
        rcases hor with he | hm
        · exact h he.symm
        · exact hn hm
      · intro hn hm
        exact hn (Or.inr hm)

theorem alGet_isSome_iff {α : Type} (l : List (String × α)) (k : String) :
    (alGet l k).isSome = true ↔ k ∈ alKeys l := by
  rw [Option.isSome_iff_ne_none]
  constructor
  · intro h
    by_contra hk
    exact h ((alGet_eq_none_iff l k).2 hk)
  · intro h he
    exact ((alGet_eq_none_iff l k).1 he) h

theorem alHas_iff_mem {α : Type} (l : List (String × α)) (k : String) :
    alHas l k = true ↔ k ∈ alKeys l := by
  rw [alHas, alGet_isSome_iff]

theorem alGet_mem {α : Type} {l : List (String × α)} {k : String} {v : α}
    (h : alGet l k = some v) : (k, v) ∈ l := by
  induction l with
  | nil => simp [alGet_nil] at h
  | cons kv rest ih =>
    rw [alGet_cons] at h
    by_cases hk : kv.1 = k
    · simp only [hk, if_true, Option.some.injEq] at h
      have : kv = (k, v) := by
        cases kv
        simp_all
      rw [← this]
      exact List.mem_cons_self _ _
    · simp only [hk, if_false] at h
      exact List.mem_cons.2 (Or.inr (ih h))

theorem nodup_alKeys_cons {α : Type} {kv : String × α} {rest : List (String × α)}
    (hnd : (alKeys (kv :: rest)).Nodup) :
    kv.1 ∉ alKeys rest ∧ (alKeys rest).Nodup := by
  have : alKeys (kv :: rest) = kv.1 :: alKeys rest := rfl
  rw [this, List.nodup_cons] at hnd
  exact hnd

theorem alGet_of_mem_nodup {α : Type} {l : List (String × α)} {k : String} {v : α}
    (hnd : (alKeys l).Nodup) (h : (k, v) ∈ l) : alGet l k = some v := by
  induction l with
  | nil => simp at h
  | cons kv rest ih =>
    obtain ⟨hnotin, hnd'⟩ := nodup_alKeys_cons hnd
    rw [alGet_cons]
    rcases List.mem_cons.1 h with he | hm
    · rw [← he]
      simp
    · have hk : kv.1 ≠ k := by
        intro hek
        apply hnotin
        rw [hek]
        exact List.mem_map.2 ⟨(k, v), hm, rfl⟩
      rw [if_neg hk]
      exact ih hnd' hm

theorem alGet_append {α : Type} (l₁ l₂ : List (String × α)) (k : String) :
    alGet (l₁ ++ l₂) k = (alGet l₁ k).orElse (fun _ => alGet l₂ k) := by
  induction l₁ with
  | nil => simp [alGet_nil]
  | cons kv rest ih =>
    rw [List.cons_append, alGet_cons, alGet_cons]
    by_cases h : kv.1 = k <;> simp [h, ih]

theorem map_alSet_of_not_mem {α : Type} {l : List (String × α)} {k : String} (v : α)
    (h : k ∉ alKeys l) :
    l.map (fun kv => if kv.1 = k then (k, v) else kv) = l := by
  induction l with
  | nil => rfl
  | cons kv rest ih =>
    have hsplit : ¬ k = kv.1 ∧ k ∉ alKeys rest := by
      have : alKeys (kv :: rest) = kv.1 :: alKeys rest := rfl
      rw [this, List.mem_cons, not_or] at h
      exact h
    have h1 : kv.1 ≠ k := fun hh => hsplit.1 hh.symm
    rw [List.map_cons, if_neg h1, ih hsplit.2]

theorem alGet_map_replace_self {α : Type} {l : List (String × α)} {k : String} (v : α)
    (hmem : k ∈ alKeys l) :
    alGet (l.map (fun kv => if kv.1 = k then (k, v) else kv)) k = some v := by
  induction l with
  | nil => simp [alKeys] at hmem
  | cons kv rest ih =>
    by_cases hk : kv.1 = k
    · rw [List.map_cons, if_pos hk, alGet_cons]
      simp
    · rw [List.map_cons, if_neg hk, alGet_cons, if_neg hk]
      apply ih
      have : alKeys (kv :: rest) = kv.1 :: alKeys rest := rfl
      rw [this, List.mem_cons] at hmem
      rcases hmem with he | hm
      · exact absurd he.symm hk
      · exact hm

theorem alGet_map_replace_ne {α : Type} {l : List (String × α)} {k k' : String} (v : α)
    (h : k' ≠ k) :
    alGet (l.map (fun kv => if kv.1 = k then (k, v) else kv)) k' = alGet l k' := by
  induction l with
  | nil => rfl
  | cons kv rest ih =>
    by_cases hk : kv.1 = k
    · rw [List.map_cons, if_pos hk, alGet_cons, alGet_cons]
      have h1 : ¬ (k = k') := fun he => h he.symm
      have h2 : ¬ (kv.1 = k') := by rw [hk]; exact h1
      simp only [h1, h2, if_false]
      exact ih
    · rw [List.map_cons, if_neg hk, alGet_cons, alGet_cons]
      by_cases hk' : kv.1 = k'
      · simp [hk']
      · simp only [hk', if_false]
        exact ih

theorem alGet_singleton {α : Type} (k k' : String) (v : α) :
    alGet [(k, v)] k' = if k = k' then some v else none := by
  rw [alGet_cons, alGet_nil]

theorem alGet_alSet_self {α : Type} (l : List (String × α)) (k : String) (v : α) :
    alGet (alSet l k v) k = some v := by
  rw [alSet]
  by_cases h : alHas l k = true
  · rw [if_pos h]
    exact alGet_map_replace_self v ((alHas_iff_mem l k).1 h)
  · rw [if_neg h, alGet_append]
    have hn : alGet l k = none := by
      rw [alGet_eq_none_iff]
      intro hm
      exact h ((alHas_iff_mem l k).2 hm)
    rw [hn, alGet_singleton, if_pos rfl]
    rfl

theorem alGet_alSet_ne {α : Type} (l : List (String × α)) (k k' : String) (v : α)
    (h : k' ≠ k) : alGet (alSet l k v) k' = alGet l k' := by
  rw [alSet]
  by_cases hh : alHas l k = true
  · rw [if_pos hh]
    exact alGet_map_replace_ne v h
  · rw [if_neg hh, alGet_append, alGet_singleton, if_neg (fun he => h he.symm)]
    cases hg : alGet l k' <;> rfl

theorem alKeys_append {α : Type} (l₁ l₂ : List (String × α)) :
    alKeys (l₁ ++ l₂) = alKeys l₁ ++ alKeys l₂ := by
  simp [alKeys]

theorem alKeys_alSet_of_has {α : Type} {l : List (String × α)} {k : String} (v : α)
    (h : alHas l k = true) : alKeys (alSet l k v) = alKeys l := by
  rw [alSet, if_pos h, alKeys, alKeys, List.map_map]
  apply List.map_congr_left
  intro kv _
  by_cases hk : kv.1 = k <;> simp [hk]

theorem alKeys_alSet_of_not {α : Type} {l : List (String × α)} {k : String} (v : α)
    (h : alHas l k = false) : alKeys (alSet l k v) = alKeys l ++ [k] := by
  rw [alSet, if_neg (by simp [h]), alKeys_append]
  rfl

theorem length_alSet_of_has {α : Type} {l : List (String × α)} {k : String} (v : α)
    (h : alHas l k = true) : (alSet l k v).length = l.length := by
  rw [alSet, if_pos h, List.length_map]

theorem alGet_alErase_self {α : Type} (l : List (String × α)) (k : String) :
    alGet (alErase l k) k = none := by
  rw [alGet_eq_none_iff]
  intro hmem
  simp only [alErase, alKeys, List.mem_map, List.mem_filter] at hmem
  obtain ⟨kv, ⟨_, hne⟩, hk⟩ := hmem
  simp [hk] at hne

theorem alGet_erase_some {α : Type} {l : List (String × α)} {k k' : String} {v : α}
    (h : alGet (alErase l k) k' = some v) : alGet l k' = some v := by
  by_cases hkk : k' = k
  · rw [hkk, alGet_alErase_self] at h
    cases h
  · induction l with
    | nil => simp [alErase, alGet_nil] at h
    | cons kv rest ih =>
      rw [alErase, List.filter_cons] at h
      by_cases hk : kv.1 = k
      · have hk' : kv.1 ≠ k' := by rw [hk]; exact fun he => hkk he.symm
        simp only [hk, decide_True, not_true_eq_false, decide_False, if_false] at h
        rw [alGet_cons, if_neg hk']
        exact ih (by simpa [alErase] using h)
      · simp only [hk, decide_False, not_false_eq_true, decide_True, if_true] at h
        rw [alGet_cons] at h ⊢
        by_cases hk' : kv.1 = k'
        · simpa [hk'] using h
        · rw [if_neg hk'] at h ⊢
          exact ih (by simpa [alErase] using h)

theorem two_distinct_mem_one_lt_length {α : Type} {l : List α} {a b : α}
    (ha : a ∈ l) (hb : b ∈ l) (hab : a ≠ b) : 1 < l.length := by
  match l with
  | [] => cases ha
  | [x] =>
    rw [List.mem_singleton] at ha hb
    exact absurd (ha.trans hb.symm) hab
  | x :: y :: rest => simp [List.length_cons]

/-! ### Counter lemmas (`collections.Counter`) -/

theorem alGet_counterAdd (acc : List (String × Nat)) (v k : String) :
    alGet (counterAdd acc v) k =
      if k = v then some ((alGet acc v).getD 0 + 1) else alGet acc k := by
  rw [counterAdd]
  cases hg : alGet acc v with
  | some c =>
    by_cases hk : k = v
    · rw [hk, alGet_alSet_self, hg]
      simp
    · rw [alGet_alSet_ne _ _ _ _ hk, if_neg hk]
  | none =>
    by_cases hk : k = v
    · rw [hk, alGet_append, hg, alGet_singleton, if_pos rfl, if_pos rfl]
      rfl
    · rw [alGet_append, alGet_singleton, if_neg (fun he => hk he.symm), if_neg hk]
      cases alGet acc k <;> rfl

theorem alGet_foldl_counterAdd (vals : List String) :
    ∀ (acc : List (String × Nat)) (k : String),
      alGet (vals.foldl counterAdd acc) k =
        if k ∈ vals ∨ (alGet acc k).isSome then
          some ((alGet acc k).getD 0 + vals.count k) else none := by
  induction vals with
  | nil =>
    intro acc k
    cases hg : alGet acc k <;> simp [hg]
  | cons v rest ih =>
    intro acc k
    rw [List.foldl_cons, ih (counterAdd acc v) k]
    by_cases hk : k = v
    · have h1 : alGet (counterAdd acc v) k = some ((alGet acc v).getD 0 + 1) := by
        rw [alGet_counterAdd, if_pos hk]
      have hcnt : (v :: rest).count k = rest.count k + 1 := by
        simp [List.count_cons, hk]
      rw [h1, hcnt]
      simp only [Option.isSome_some, or_true, if_true, hk, List.mem_cons, true_or, if_true,
        Option.getD_some]
      rw [← hk]
      cases hg : alGet acc k <;> simp [hg] <;> omega
    · have h1 : alGet (counterAdd acc v) k = alGet acc k := by
        rw [alGet_counterAdd, if_neg hk]
      have hcnt : (v :: rest).count k = rest.count k := by
        simp [List.count_cons, hk]
      rw [h1, hcnt]
      have hmem : (k ∈ v :: rest ∨ (alGet acc k).isSome) ↔ (k ∈ rest ∨ (alGet acc k).isSome) := by
        simp [List.mem_cons, hk]
      by_cases hc : k ∈ rest ∨ (alGet acc k).isSome = true
      · rw [if_pos hc, if_pos (hmem.2 hc)]
      · rw [if_neg hc, if_neg (fun hx => hc (hmem.1 hx))]

theorem alGet_mkCounter (vals : List String) (k : String) :
    alGet (mkCounter vals) k = if k ∈ vals then some (vals.count k) else none := by
  rw [mkCounter, alGet_foldl_counterAdd]
  simp [alGet_nil]

theorem mem_alKeys_mkCounter (vals : List String) (k : String) :
    k ∈ alKeys (mkCounter vals) ↔ k ∈ vals := by
  rw [← alGet_isSome_iff, alGet_mkCounter]
  by_cases h : k ∈ vals <;> simp [h]

theorem nodup_alKeys_foldl_counterAdd (vals : List String) :
    ∀ acc : List (String × Nat), (alKeys acc).Nodup →
      (alKeys (vals.foldl counterAdd acc)).Nodup := by
  induction vals with
  | nil => intro acc h; exact h
  | cons v rest ih =>
    intro acc h
    rw [List.foldl_cons]
    apply ih
    rw [counterAdd]
    cases hg : alGet acc v with
    | some c =>
      rw [alKeys_alSet_of_has]
      · exact h
      · rw [alHas, hg]
        rfl
    | none =>
      rw [alKeys_append]
      have hnotin : v ∉ alKeys acc := (alGet_eq_none_iff acc v).1 hg
      simp only [List.nodup_append, alKeys, List.map_cons, List.map_nil]
      refine ⟨h, by simp, ?_⟩
      intro x hx
      simp only [List.mem_singleton]
      intro he
      rw [he] at hx
      exact hnotin hx

theorem nodup_alKeys_mkCounter (vals : List String) :
    (alKeys (mkCounter vals)).Nodup :=
  nodup_alKeys_foldl_counterAdd vals [] (by simp [alKeys])

theorem mem_mkCounter_iff (vals : List String) (k : String) (c : Nat) :
    (k, c) ∈ mkCounter vals ↔ k ∈ vals ∧ c = vals.count k := by
  constructor
  · intro h
    have := alGet_of_mem_nodup (nodup_alKeys_mkCounter vals) h
    rw [alGet_mkCounter] at this
    by_cases hm : k ∈ vals
    · rw [if_pos hm] at this
      exact ⟨hm, (Option.some.injEq _ _ ▸ this).symm⟩
    · rw [if_neg hm] at this
      cases this
  · rintro ⟨hm, hc⟩
    apply alGet_mem
    rw [alGet_mkCounter, if_pos hm, hc]

theorem mkCounter_ne_nil {vals : List String} {v : String} (h : v ∈ vals) :
    mkCounter vals ≠ [] := by
  intro he
  have := (mem_mkCounter_iff vals v (vals.count v)).2 ⟨h, rfl⟩
  rw [he] at this
  cases this

/-! ### Sum of counter values -/

theorem sum_map_alSet_succ {l : List (String × Nat)} {k : String} {c : Nat}
    (hnd : (alKeys l).Nodup) (hg : alGet l k = some c) :
    ((alSet l k (c + 1)).map (·.2)).sum = ((l.map (·.2)).sum) + 1 := by
  have hhas : alHas l k = true := by rw [alHas, hg]; rfl
  rw [alSet, if_pos hhas]
  clear hhas
  induction l with
  | nil => simp [alGet_nil] at hg
  | cons kv rest ih =>
    obtain ⟨hnotin, hnd'⟩ := nodup_alKeys_cons hnd
    rw [alGet_cons] at hg
    by_cases hk : kv.1 = k
    · rw [if_pos hk] at hg
      have hc : kv.2 = c := Option.some.injEq _ _ ▸ hg
      have hrest : rest.map (fun kv => if kv.1 = k then (k, c + 1) else kv) = rest := by
        apply map_alSet_of_not_mem
        rw [← hk]
        exact hnotin
      rw [List.map_cons, if_pos hk, hrest, List.map_cons, List.map_cons]
      simp [hc]
      omega
    · rw [if_neg hk] at hg
      rw [List.map_cons, if_neg hk, List.map_cons, List.map_cons]
      simp only [List.sum_cons]
      rw [ih hnd' hg]
      omega

theorem sum_map_foldl_counterAdd (vals : List String) :
    ∀ acc : List (String × Nat), (alKeys acc).Nodup →
      (((vals.foldl counterAdd acc).map (·.2)).sum) = ((acc.map (·.2)).sum) + vals.length := by
  induction vals with
  | nil => intro acc _; simp
  | cons v rest ih =>
    intro acc hnd
    rw [List.foldl_cons]
    have hnd' : (alKeys (counterAdd acc v)).Nodup := by
      have := nodup_alKeys_foldl_counterAdd [v] acc hnd
      simpa using this
    rw [ih (counterAdd acc v) hnd']
    have : ((counterAdd acc v).map (·.2)).sum = ((acc.map (·.2)).sum) + 1 := by
      rw [counterAdd]
      cases hg : alGet acc v with
      | some c => exact sum_map_alSet_succ hnd hg
      | none => simp
    rw [this]
    simp
    omega

theorem sum_map_mkCounter (vals : List String) :
    ((mkCounter vals).map (·.2)).sum = vals.length := by
  have := sum_map_foldl_counterAdd vals [] (by simp [alKeys])
  simpa [mkCounter] using this

/-! ### `most_common()` lemmas -/

theorem perm_insByCountDesc (x : String × Nat) (l : List (String × Nat)) :
    List.Perm (insByCountDesc x l) (x :: l) := by
  induction l with
  | nil => exact List.Perm.refl _
  | cons y ys ih =>
    rw [insByCountDesc]
    by_cases h : y.2 ≤ x.2
    · rw [if_pos h]
    · rw [if_neg h]
      exact (ih.cons y).trans (List.Perm.swap x y ys)

theorem perm_mostCommon (l : List (String × Nat)) : List.Perm (mostCommon l) l := by
  induction l with
  | nil => exact List.Perm.refl _
  | cons x xs ih =>
    rw [mostCommon, List.foldr_cons]
    exact (perm_insByCountDesc x (xs.foldr insByCountDesc [])).trans (ih.cons x)

theorem pairwise_insByCountDesc {l : List (String × Nat)} (x : String × Nat)
    (h : l.Pairwise (fun a b => b.2 ≤ a.2)) :
    (insByCountDesc x l).Pairwise (fun a b => b.2 ≤ a.2) := by
  induction l with
  | nil => simp [insByCountDesc]
  | cons y ys ih =>
    rw [insByCountDesc]
    rw [List.pairwise_cons] at h
    by_cases hc : y.2 ≤ x.2
    · rw [if_pos hc]
      rw [List.pairwise_cons]
      constructor
      · intro z hz
        rcases List.mem_cons.1 hz with he | hm
        · rw [he]; exact hc
        · exact le_trans (h.1 z hm) hc
      · rw [List.pairwise_cons]
        exact h
    · rw [if_neg hc]
      rw [List.pairwise_cons]
      constructor
      · intro z hz
        have hz' := (perm_insByCountDesc x ys).mem_iff.1 hz
        rcases List.mem_cons.1 hz' with he | hm
        · rw [he]
          omega
        · exact h.1 z hm
      · exact ih h.2

theorem pairwise_mostCommon (l : List (String × Nat)) :
    (mostCommon l).Pairwise (fun a b => b.2 ≤ a.2) := by
  induction l with
  | nil => simp [mostCommon]
  | cons x xs ih =>
    rw [mostCommon, List.foldr_cons]
    exact pairwise_insByCountDesc x ih

/-! ### `fillVotes` lemmas -/

theorem alGet_fillVotes_preserved (players : List (String × Player)) :
    ∀ (votes : List (String × String)) (k v : String), alGet votes k = some v →
      alGet (fillVotes players votes) k = some v := by
  induction players with
  | nil => intro votes k v h; exact h
  | cons kp rest ih =>
    intro votes k v h
    rw [fillVotes, List.foldl_cons]
    by_cases hh : alHas votes kp.1 = true
    · rw [if_pos hh]
      exact ih votes k v h
    · rw [if_neg hh]
      apply ih
      rw [alGet_append, h]
      rfl

theorem alGet_fillVotes_abstain (players : List (String × Player)) :
    ∀ (votes : List (String × String)) (k : String), k ∈ alKeys players →
      alGet votes k = none → alGet (fillVotes players votes) k = some ABSTAIN := by
  induction players with
  | nil => intro votes k hk _; simp [alKeys] at hk
  | cons kp rest ih =>
    intro votes k hk hnone
    rw [fillVotes, List.foldl_cons]
    by_cases hke : k = kp.1
    · have hh : alHas votes kp.1 = false := by
        rw [alHas, ← hke, hnone]
        rfl
      rw [if_neg (by simp [hh])]
      apply alGet_fillVotes_preserved
      rw [alGet_append, ← hke, hnone, alGet_singleton, if_pos rfl]
      rfl
    · have hk' : k ∈ alKeys rest := by
        have : alKeys (kp :: rest) = kp.1 :: alKeys rest := rfl
        rw [this, List.mem_cons] at hk
        rcases hk with he | hm
        · exact absurd he hke
        · exact hm
      by_cases hh : alHas votes kp.1 = true
      · rw [if_pos hh]
        exact ih votes k hk' hnone
      · rw [if_neg hh]
        apply ih _ k hk'
        rw [alGet_append, hnone, alGet_singleton, if_neg (fun he => hke he.symm)]
        rfl

theorem mem_map_snd_fillVotes (players : List (String × Player)) :
    ∀ (votes : List (String × String)) (v : String),
      v ∈ (fillVotes players votes).map (·.2) →
      v ∈ votes.map (·.2) ∨ v = ABSTAIN := by
  induction players with
  | nil => intro votes v h; exact Or.inl h
  | cons kp rest ih =>
    intro votes v h
    rw [fillVotes, List.foldl_cons] at h
    by_cases hh : alHas votes kp.1 = true
    · rw [if_pos hh] at h
      exact ih votes v h
    · rw [if_neg hh] at h
      rcases ih _ v h with hm | he
      · rw [List.map_append] at hm
        rcases List.mem_append.1 hm with h1 | h2
        · exact Or.inl h1
        · right
          simpa using h2
      · exact Or.inr he

theorem length_filter_add_not {α : Type} (l : List α) (p : α → Bool) :
    (l.filter p).length + (l.filter (fun a => ¬ p a = true)).length = l.length := by
  induction l with
  | nil => rfl
  | cons x xs ih =>
    rw [List.filter_cons, List.filter_cons]
    by_cases h : p x = true
    · rw [if_pos h, if_neg (by simp [h])]
      simp only [List.length_cons]
      omega
    · rw [if_neg h, if_pos (by simp [h])]
      simp only [List.length_cons]
      omega

theorem length_fillVotes (players : List (String × Player)) :
    ∀ votes : List (String × String), (alKeys players).Nodup →
      (fillVotes players votes).length =
        votes.length + (players.filter (fun kp => ¬ alHas votes kp.1 = true)).length := by
  induction players with
  | nil => intro votes _; rfl
  | cons kp rest ih =>
    intro votes hnd
    obtain ⟨hnotin, hnd'⟩ := nodup_alKeys_cons hnd
    rw [fillVotes, List.foldl_cons, List.filter_cons]
    by_cases hh : alHas votes kp.1 = true
    · rw [if_pos hh]
      have hfill := ih votes hnd'
      rw [fillVotes] at hfill
      rw [if_neg (by simp [hh])]
      exact hfill
    · rw [if_neg hh]
      have hfill := ih (votes ++ [(kp.1, ABSTAIN)]) hnd'
      rw [fillVotes] at hfill
      have hcong : rest.filter (fun kv => ¬ alHas (votes ++ [(kp.1, ABSTAIN)]) kv.1 = true) =
          rest.filter (fun kv => ¬ alHas votes kv.1 = true) := by
        apply List.filter_congr
        intro kv hkv
        have hne : kv.1 ≠ kp.1 := by
          intro he
          apply hnotin
          rw [← he]
          exact List.mem_map.2 ⟨kv, hkv, rfl⟩
        have hget : alGet (votes ++ [(kp.1, ABSTAIN)]) kv.1 = alGet votes kv.1 := by
          rw [alGet_append, alGet_singleton, if_neg (fun he => hne he.symm)]
          cases hg : alGet votes kv.1 <;> rfl
        simp [alHas, hget]
      rw [hfill, hcong, if_pos (by simp [hh])]
      simp only [List.length_append, List.length_cons, List.length_nil]
      omega

theorem alKeys_filter_has (players : List (String × Player))
    (votes : List (String × String)) :
    alKeys (players.filter (fun kp => alHas votes kp.1)) =
      (alKeys players).filter (fun k => alHas votes k) := by
  induction players with
  | nil => rfl
  | cons kp rest ihr =>
    simp only [alKeys] at ihr ⊢
    rw [List.filter_cons, List.map_cons, List.filter_cons]
    by_cases hh : alHas votes kp.1 = true
    · rw [if_pos hh, if_pos hh, List.map_cons, ihr]
    · rw [if_neg hh, if_neg hh, ihr]

theorem length_filter_has (players : List (String × Player))
    (votes : List (String × String))
    (hndp : (alKeys players).Nodup) (hndv : (alKeys votes).Nodup)
    (hsub : ∀ k ∈ alKeys votes, k ∈ alKeys players) :
    (players.filter (fun kp => alHas votes kp.1)).length = votes.length := by
  have hkeys := alKeys_filter_has players votes
  have hnodupL : (alKeys (players.filter (fun kp => alHas votes kp.1))).Nodup := by
    rw [hkeys]
    exact hndp.filter _
  have hsub1 : ∀ k, k ∈ alKeys (players.filter (fun kp => alHas votes kp.1)) →
      k ∈ alKeys votes := by
    intro k hk
    rw [hkeys, List.mem_filter] at hk
    exact (alHas_iff_mem votes k).1 hk.2
  have hsub2 : ∀ k, k ∈ alKeys votes →
      k ∈ alKeys (players.filter (fun kp => alHas votes kp.1)) := by
    intro k hk
    rw [hkeys, List.mem_filter]
    exact ⟨hsub k hk, (alHas_iff_mem votes k).2 hk⟩
  have h1 := (List.Nodup.subperm hnodupL hsub1).length_le
  have h2 := (List.Nodup.subperm hndv hsub2).length_le
  have hlen : (alKeys (players.filter (fun kp => alHas votes kp.1))).length =
      (alKeys votes).length := le_antisymm h1 h2
  have e1 : (alKeys (players.filter (fun kp => alHas votes kp.1))).length =
      (players.filter (fun kp => alHas votes kp.1)).length := by
    rw [alKeys, List.length_map]
  have e2 : (alKeys votes).length = votes.length := by rw [alKeys, List.length_map]
  rw [e1, e2] at hlen
  exact hlen

theorem length_fillVotes_eq_players (players : List (String × Player))
    (votes : List (String × String))
    (hndp : (alKeys players).Nodup) (hndv : (alKeys votes).Nodup)
    (hsub : ∀ k ∈ alKeys votes, k ∈ alKeys players) :
    (fillVotes players votes).length = players.length := by
  have h1 := length_fillVotes players votes hndp
  have h2 := length_filter_has players votes hndp hndv hsub
  have h3 := length_filter_add_not players (fun kp => alHas votes kp.1)
  omega

/-! ### `tallyNames` lemmas -/

theorem tallyNames_isSome (players : List (String × Player)) :
    ∀ (vcs acc : List (String × Nat)),
      (∀ kv ∈ vcs, kv.1 = ABSTAIN ∨ (alGet players kv.1).isSome = true) →
      ∃ out, tallyNames players vcs acc = some out := by
  intro vcs
  induction vcs with
  | nil => intro acc _; exact ⟨acc, rfl⟩
  | cons kv rest ih =>
    intro acc hok
    rcases hok kv (List.mem_cons_self _ _) with he | hs
    · cases kv with
      | mk k v =>
        simp only at he
        rw [tallyNames, if_pos he]
        exact ih _ (fun kv' h' => hok kv' (List.mem_cons_of_mem _ h'))
    · cases kv with
      | mk k v =>
        rw [tallyNames]
        by_cases he : k = ABSTAIN
        · rw [if_pos he]
          exact ih _ (fun kv' h' => hok kv' (List.mem_cons_of_mem _ h'))
        · rw [if_neg he]
          simp only at hs
          cases hg : alGet players k with
          | none => rw [hg] at hs; cases hs
          | some p => exact ih _ (fun kv' h' => hok kv' (List.mem_cons_of_mem _ h'))

/-- The name a tally key is recorded under by the `votes_tally`
comprehension (`none` when the lookup would fault). -/
def mappedTallyKey (players : List (String × Player)) (k : String) : Option String :=
  if k = ABSTAIN then some ABSTAIN else (alGet players k).map (·.name)

theorem tallyNames_cons_abst (players : List (String × Player))
    (rest acc : List (String × Nat)) (v : Nat) :
    tallyNames players ((ABSTAIN, v) :: rest) acc =
      tallyNames players rest (alSet acc ABSTAIN v) := by
  rw [tallyNames, if_pos rfl]

theorem tallyNames_cons_player (players : List (String × Player))
    (rest acc : List (String × Nat)) (k : String) (v : Nat) (p : Player)
    (he : k ≠ ABSTAIN) (hg : alGet players k = some p) :
    tallyNames players ((k, v) :: rest) acc =
      tallyNames players rest (alSet acc p.name v) := by
  rw [tallyNames, if_neg he, hg]

theorem alSet_fresh_append {α : Type} (acc : List (String × α)) (n : String) (v : α)
    (h : n ∉ alKeys acc) : alSet acc n v = acc ++ [(n, v)] := by
  have hnone : alGet acc n = none := (alGet_eq_none_iff acc n).2 h
  rw [alSet, if_neg (by rw [alHas, hnone]; simp)]

theorem tallyNames_sum (players : List (String × Player)) :
    ∀ (vcs acc : List (String × Nat)),
      (∀ kv ∈ vcs, ∃ n, mappedTallyKey players kv.1 = some n ∧ n ∉ alKeys acc) →
      vcs.Pairwise (fun a b => mappedTallyKey players a.1 ≠ mappedTallyKey players b.1) →
      ∃ out, tallyNames players vcs acc = some out ∧
        (out.map (·.2)).sum = ((acc.map (·.2)).sum) + ((vcs.map (·.2)).sum) := by
  intro vcs
  induction vcs with
  | nil => intro acc _ _; exact ⟨acc, rfl, by simp⟩
  | cons kv rest ih =>
    intro acc hok hpw
    obtain ⟨n, hn, hfresh⟩ := hok kv (List.mem_cons_self _ _)
    rw [List.pairwise_cons] at hpw
    cases kv with
    | mk k v =>
      simp only at hn hfresh
      have hstep : ∀ acc', acc' = acc ++ [(n, v)] →
          (∃ out, tallyNames players rest acc' = some out ∧
            (out.map (·.2)).sum = ((acc'.map (·.2)).sum) + ((rest.map (·.2)).sum)) →
          (∃ out, tallyNames players rest acc' = some out ∧
            (out.map (·.2)).sum =
              ((acc.map (·.2)).sum) + (((k, v) :: rest).map (·.2)).sum) := by
        rintro acc' rfl ⟨out, ho, hs⟩
        refine ⟨out, ho, ?_⟩
        rw [hs]
        simp
        omega
      have hrec : ∀ acc', acc' = acc ++ [(n, v)] →
          ∃ out, tallyNames players rest acc' = some out ∧
            (out.map (·.2)).sum = ((acc'.map (·.2)).sum) + ((rest.map (·.2)).sum) := by
        rintro acc' rfl
        apply ih
        · intro kv' h'
          obtain ⟨n', hn', hfresh'⟩ := hok kv' (List.mem_cons_of_mem _ h')
          refine ⟨n', hn', ?_⟩
          rw [alKeys_append]
          simp only [List.mem_append]
          intro hor
          rcases hor with hin | hin
          · exact hfresh' hin
          · have hne : mappedTallyKey players (k, v).1 ≠ mappedTallyKey players kv'.1 :=
              hpw.1 kv' h'
            simp only [alKeys, List.map_cons, List.map_nil, List.mem_singleton] at hin
            apply hne
            rw [hn, hn', hin]
        · exact hpw.2
      by_cases he : k = ABSTAIN
      · subst he
        have hnA : n = ABSTAIN := by
          rw [mappedTallyKey, if_pos rfl] at hn
          exact (Option.some.injEq _ _ ▸ hn).symm
        have hset : alSet acc ABSTAIN v = acc ++ [(n, v)] := by
          rw [← hnA]
          exact alSet_fresh_append acc n v hfresh
        rw [tallyNames_cons_abst, hset]
        exact hstep _ rfl (hrec _ rfl)
      · rw [mappedTallyKey, if_neg he] at hn
        cases hg : alGet players k with
        | none => rw [hg] at hn; cases hn
        | some p =>
          rw [hg] at hn
          have hpn : p.name = n := Option.some.injEq _ _ ▸ hn
          have hset : alSet acc p.name v = acc ++ [(n, v)] := by
            rw [hpn]
            exact alSet_fresh_append acc n v hfresh
          rw [tallyNames_cons_player players rest acc k v p he hg, hset]
          exact hstep _ rfl (hrec _ rfl)

/-! ### The filtered `most_common` tally -/

/-- The list `most_voted_tally` computed inside `process_votes`, as a
function of the (already filled) vote values. -/
def tallyFiltered (vals : List String) : List (String × Nat) :=
  (mostCommon (mkCounter vals)).filter (fun it => it.1 ≠ ABSTAIN)

theorem mem_tallyFiltered_iff (vals : List String) (kv : String × Nat) :
    kv ∈ tallyFiltered vals ↔
      kv.1 ≠ ABSTAIN ∧ kv.1 ∈ vals ∧ kv.2 = vals.count kv.1 := by
  rw [tallyFiltered, List.mem_filter]
  rw [(perm_mostCommon (mkCounter vals)).mem_iff]
  cases kv with
  | mk k c =>
    rw [mem_mkCounter_iff]
    simp only [decide_eq_true_eq]
    tauto

theorem nodup_alKeys_tallyFiltered (vals : List String) :
    (alKeys (tallyFiltered vals)).Nodup := by
  have h1 : (alKeys (mostCommon (mkCounter vals))).Nodup := by
    have hperm : List.Perm (alKeys (mostCommon (mkCounter vals)))
        (alKeys (mkCounter vals)) := (perm_mostCommon (mkCounter vals)).map _
    exact hperm.nodup_iff.2 (nodup_alKeys_mkCounter vals)
  have hsub : (tallyFiltered vals).Sublist (mostCommon (mkCounter vals)) :=
    List.filter_sublist _
  exact List.Sublist.nodup (hsub.map _) h1

theorem pairwise_tallyFiltered (vals : List String) :
    (tallyFiltered vals).Pairwise (fun a b => b.2 ≤ a.2) :=
  List.Pairwise.sublist (List.filter_sublist _) (pairwise_mostCommon _)

theorem count_filter_ne_abstain (vals : List String) (t : String) (h : t ≠ ABSTAIN) :
    (vals.filter (fun u => u ≠ ABSTAIN)).count t = vals.count t :=
  List.count_filter (by simp [h])

theorem mem_filter_ne_abstain (vals : List String) (t : String) :
    t ∈ vals.filter (fun u => u ≠ ABSTAIN) ↔ t ≠ ABSTAIN ∧ t ∈ vals := by
  rw [List.mem_filter]
  simp only [decide_eq_true_eq]
  tauto

/-- Spec vocabulary: `t` is a target holding the highest count among the
non-abstaining votes of the value list `vals`. -/
def maxTargetOf (vals : List String) (t : String) : Prop :=
  t ∈ vals.filter (fun u => u ≠ ABSTAIN) ∧
    ∀ u ∈ vals.filter (fun u => u ≠ ABSTAIN),
      (vals.filter (fun u => u ≠ ABSTAIN)).count u ≤
        (vals.filter (fun u => u ≠ ABSTAIN)).count t

theorem exists_two_ne_keys {l : List (String × Nat)} (hlen : 1 < l.length)
    (hnd : (alKeys l).Nodup) : ∃ a b, a ∈ l ∧ b ∈ l ∧ a.1 ≠ b.1 := by
  match l with
  | [] => simp at hlen
  | [x] => simp at hlen
  | a :: b :: rest =>
    refine ⟨a, b, List.mem_cons_self _ _, List.mem_cons_of_mem _ (List.mem_cons_self _ _), ?_⟩
    have : alKeys (a :: b :: rest) = a.1 :: b.1 :: alKeys rest := rfl
    rw [this, List.nodup_cons] at hnd
    intro he
    exact hnd.1 (by rw [he]; exact List.mem_cons_self _ _)

theorem tallyFiltered_head_max (vals : List String) (t : String) (c : Nat)
    (rest : List (String × Nat)) (h : tallyFiltered vals = (t, c) :: rest) :
    t ≠ ABSTAIN ∧ t ∈ vals ∧ c = vals.count t ∧
      ∀ kv ∈ tallyFiltered vals, kv.2 ≤ c := by
  have hmem : (t, c) ∈ tallyFiltered vals := by
    rw [h]
    exact List.mem_cons_self _ _
  have hchar := (mem_tallyFiltered_iff vals (t, c)).1 hmem
  refine ⟨hchar.1, hchar.2.1, hchar.2.2, ?_⟩
  intro kv hkv
  rw [h] at hkv
  rcases List.mem_cons.1 hkv with he | hm
  · rw [he]
  · have hpw := pairwise_tallyFiltered vals
    rw [h, List.pairwise_cons] at hpw
    exact hpw.1 kv hm

theorem vwm_eq_escape1 (players : List (String × Player)) (impostor_id : Option String)
    (C : List (String × Nat))
    (hb1 : C = [] ∨ (C.length = 1 ∧ alHas C ABSTAIN = true)) :
    voteWinnerMessage players impostor_id C =
      (impostorLookup players impostor_id).map (fun ip =>
        ("IMPOSTOR", "Ninguém votou ou todos se abstiveram! O Impostor (" ++ ip.name ++ ") escapou.")) := by
  rw [voteWinnerMessage, if_pos hb1]

theorem vwm_eq_escape2 (players : List (String × Player)) (impostor_id : Option String)
    (C : List (String × Nat))
    (hb1 : ¬ (C = [] ∨ (C.length = 1 ∧ alHas C ABSTAIN = true)))
    (hT : (mostCommon C).filter (fun it => it.1 ≠ ABSTAIN) = []) :
    voteWinnerMessage players impostor_id C =
      (impostorLookup players impostor_id).map (fun ip =>
        ("IMPOSTOR", "Ninguém votou! O Impostor (" ++ ip.name ++ ") escapou.")) := by
  rw [voteWinnerMessage, if_neg hb1, hT]

theorem vwm_eq_cons (players : List (String × Player)) (impostor_id : Option String)
    (C : List (String × Nat)) (t0 : String) (c : Nat) (tl : List (String × Nat)) (mv : Player)
    (hb1 : ¬ (C = [] ∨ (C.length = 1 ∧ alHas C ABSTAIN = true)))
    (hT : (mostCommon C).filter (fun it => it.1 ≠ ABSTAIN) = (t0, c) :: tl)
    (hmv : alGet players t0 = some mv) :
    voteWinnerMessage players impostor_id C =
      (if 1 < (((t0, c) :: tl).filter (fun it => it.2 = c)).length then
        (impostorLookup players impostor_id).map (fun ip =>
          ("IMPOSTOR", "Empate na votação! O Impostor (" ++ ip.name ++ ") escapou."))
      else if impostor_id = some t0 then
        some ("INOCENTES", "SUCESSO! " ++ mv.name ++ " foi eliminado e ERA o Impostor! Inocentes vencem.")
      else
        (impostorLookup players impostor_id).map (fun ip =>
          ("IMPOSTOR", "FRACASSO! " ++ mv.name ++ " foi eliminado, mas era INOCENTE. O Impostor (" ++ ip.name ++ ") venceu."))) := by
  rw [voteWinnerMessage, if_neg hb1]
  split
  · rename_i heq
    rw [hT] at heq
    cases heq
  · rename_i mvid cnt rst heq
    rw [hT] at heq
    have e1 : t0 = mvid := congrArg (fun l => (l.headI : String × Nat).1) heq
    have e2 : c = cnt := congrArg (fun l => (l.headI : String × Nat).2) heq
    have e3 : tl = rst := congrArg List.tail heq
    subst e1
    subst e2
    subst e3
    split
    · rename_i heq2
      rw [hmv] at heq2
      cases heq2
    · rename_i mv' heq2
      rw [hmv] at heq2
      have : mv = mv' := by
        have := Option.some.injEq mv mv' ▸ heq2
        simpa using heq2
      rw [← this]

theorem voteWinnerMessage_spec (players : List (String × Player)) (imp : String)
    (ip : Player) (vals : List String)
    (hip : alGet players imp = some ip)
    (htgt : ∀ kv ∈ mkCounter vals, kv.1 = ABSTAIN ∨ (alGet players kv.1).isSome = true) :
    ∃ w m, voteWinnerMessage players (some imp) (mkCounter vals) = some (w, m) ∧
      (vals.filter (fun u => u ≠ ABSTAIN) = [] → w = "IMPOSTOR") ∧
      (∀ t₁ t₂, t₁ ≠ t₂ → maxTargetOf vals t₁ → maxTargetOf vals t₂ → w = "IMPOSTOR") ∧
      (∀ t, maxTargetOf vals t → (∀ u, maxTargetOf vals u → u = t) →
        w = if t = imp then "INOCENTES" else "IMPOSTOR") := by
  have himpL : impostorLookup players (some imp) = some ip := by
    rw [impostorLookup, hip]
  by_cases hb1 : mkCounter vals = [] ∨
      ((mkCounter vals).length = 1 ∧ alHas (mkCounter vals) ABSTAIN = true)
  · have hnon : vals.filter (fun u => u ≠ ABSTAIN) = [] := by
      rcases hb1 with hc | ⟨hlen, habs⟩
      · have hvals : vals = [] := by
          cases hv : vals with
          | nil => rfl
          | cons v rest =>
            exact absurd hc (mkCounter_ne_nil (by rw [hv]; exact List.mem_cons_self _ _))
        rw [hvals]
        rfl
      · rw [List.filter_eq_nil]
        intro a ha
        have hamem : a ∈ alKeys (mkCounter vals) := (mem_alKeys_mkCounter vals a).2 ha
        have habs' : ABSTAIN ∈ alKeys (mkCounter vals) :=
          (alHas_iff_mem (mkCounter vals) ABSTAIN).1 habs
        by_cases hane : a = ABSTAIN
        · simp [hane]
        · exfalso
          have h2 := two_distinct_mem_one_lt_length hamem habs' hane
          rw [alKeys, List.length_map, hlen] at h2
          exact lt_irrefl 1 h2
    rw [vwm_eq_escape1 players (some imp) (mkCounter vals) hb1, himpL]
    refine ⟨"IMPOSTOR", _, rfl, fun _ => rfl, fun _ _ _ _ _ => rfl, ?_⟩
    intro t ht _
    have h1 := ht.1
    rw [hnon] at h1
    cases h1
  · cases hT : tallyFiltered vals with
    | nil =>
      have hnon : vals.filter (fun u => u ≠ ABSTAIN) = [] := by
        rw [List.filter_eq_nil]
        intro a ha
        by_cases hane : a = ABSTAIN
        · simp [hane]
        · exfalso
          have : (a, vals.count a) ∈ tallyFiltered vals :=
            (mem_tallyFiltered_iff vals (a, vals.count a)).2 ⟨hane, ha, rfl⟩
          rw [hT] at this
          cases this
      rw [vwm_eq_escape2 players (some imp) (mkCounter vals) hb1 hT, himpL]
      refine ⟨"IMPOSTOR", _, rfl, fun _ => rfl, fun _ _ _ _ _ => rfl, ?_⟩
      intro t ht _
      have h1 := ht.1
      rw [hnon] at h1
      cases h1
    | cons hd tl =>
      cases hd with
      | mk t0 c =>
        have hmax := tallyFiltered_head_max vals t0 c tl hT
        have ht0nab : t0 ∈ vals.filter (fun u => u ≠ ABSTAIN) :=
          (mem_filter_ne_abstain vals t0).2 ⟨hmax.1, hmax.2.1⟩
        have hmv : ∃ mv, alGet players t0 = some mv := by
          have hmemC : (t0, vals.count t0) ∈ mkCounter vals :=
            (mem_mkCounter_iff vals t0 (vals.count t0)).2 ⟨hmax.2.1, rfl⟩
          rcases htgt _ hmemC with habs | hsome
          · exact absurd habs hmax.1
          · cases hg : alGet players t0 with
            | none => rw [hg] at hsome; cases hsome
            | some mv => exact ⟨mv, rfl⟩
        obtain ⟨mv, hmv⟩ := hmv
        rw [vwm_eq_cons players (some imp) (mkCounter vals) t0 c tl mv hb1 hT hmv]
        have ht0max : maxTargetOf vals t0 := by
          refine ⟨ht0nab, ?_⟩
          intro u hu
          obtain ⟨hune, humem⟩ := (mem_filter_ne_abstain vals u).1 hu
          rw [count_filter_ne_abstain vals u hune, count_filter_ne_abstain vals t0 hmax.1]
          have hentry : (u, vals.count u) ∈ tallyFiltered vals :=
            (mem_tallyFiltered_iff vals (u, vals.count u)).2 ⟨hune, humem, rfl⟩
          have := hmax.2.2.2 (u, vals.count u) hentry
          rw [← hmax.2.2.1]
          exact this
        have hmaxcount : ∀ u, maxTargetOf vals u → vals.count u = c := by
          intro u hu
          obtain ⟨hune, humem⟩ := (mem_filter_ne_abstain vals u).1 hu.1
          have hle : vals.count u ≤ c := by
            have hentry : (u, vals.count u) ∈ tallyFiltered vals :=
              (mem_tallyFiltered_iff vals (u, vals.count u)).2 ⟨hune, humem, rfl⟩
            exact hmax.2.2.2 (u, vals.count u) hentry
          have hge : c ≤ vals.count u := by
            have := hu.2 t0 ht0nab
            rw [count_filter_ne_abstain vals t0 hmax.1,
              count_filter_ne_abstain vals u hune] at this
            rw [hmax.2.2.1]
            exact this
          omega
        have hmem_tied : ∀ u, maxTargetOf vals u →
            (u, vals.count u) ∈ ((t0, c) :: tl).filter (fun it => it.2 = c) := by
          intro u hu
          obtain ⟨hune, humem⟩ := (mem_filter_ne_abstain vals u).1 hu.1
          rw [List.mem_filter]
          constructor
          · rw [← hT]
            exact (mem_tallyFiltered_iff vals (u, vals.count u)).2 ⟨hune, humem, rfl⟩
          · simp [hmaxcount u hu]
        by_cases htied : 1 < (((t0, c) :: tl).filter (fun it => it.2 = c)).length
        · rw [if_pos htied, himpL]
          refine ⟨"IMPOSTOR", _, rfl, fun _ => rfl, fun _ _ _ _ _ => rfl, ?_⟩
          intro t _ huniq
          exfalso
          have hndtied : (alKeys (((t0, c) :: tl).filter (fun it => it.2 = c))).Nodup := by
            have hsub : (((t0, c) :: tl).filter (fun it => it.2 = c)).Sublist ((t0, c) :: tl) :=
              List.filter_sublist _
            have h1 : (alKeys ((t0, c) :: tl)).Nodup := by
              rw [← hT]
              exact nodup_alKeys_tallyFiltered vals
            exact List.Sublist.nodup (hsub.map _) h1
          obtain ⟨a, b, hamem, hbmem, hab⟩ := exists_two_ne_keys htied hndtied
          have hamax : maxTargetOf vals a.1 := by
            obtain ⟨haT, _⟩ := List.mem_filter.1 hamem
            rw [← hT] at haT
            obtain ⟨hane, hav, hac⟩ := (mem_tallyFiltered_iff vals a).1 haT
            refine ⟨(mem_filter_ne_abstain vals a.1).2 ⟨hane, hav⟩, ?_⟩
            intro u hu
            obtain ⟨hune, humem⟩ := (mem_filter_ne_abstain vals u).1 hu
            rw [count_filter_ne_abstain vals u hune, count_filter_ne_abstain vals a.1 hane]
            have hentry : (u, vals.count u) ∈ tallyFiltered vals :=
              (mem_tallyFiltered_iff vals (u, vals.count u)).2 ⟨hune, humem, rfl⟩
            have h1 := hmax.2.2.2 (u, vals.count u) hentry
            have h2 : a.2 = c := by
              have := (List.mem_filter.1 hamem).2
              simpa using this
            omega
          have hbmax : maxTargetOf vals b.1 := by
            obtain ⟨hbT, _⟩ := List.mem_filter.1 hbmem
            rw [← hT] at hbT
            obtain ⟨hbne, hbv, hbc⟩ := (mem_tallyFiltered_iff vals b).1 hbT
            refine ⟨(mem_filter_ne_abstain vals b.1).2 ⟨hbne, hbv⟩, ?_⟩
            intro u hu
            obtain ⟨hune, humem⟩ := (mem_filter_ne_abstain vals u).1 hu
            rw [count_filter_ne_abstain vals u hune, count_filter_ne_abstain vals b.1 hbne]
            have hentry : (u, vals.count u) ∈ tallyFiltered vals :=
              (mem_tallyFiltered_iff vals (u, vals.count u)).2 ⟨hune, humem, rfl⟩
            have h1 := hmax.2.2.2 (u, vals.count u) hentry
            have h2 : b.2 = c := by
              have := (List.mem_filter.1 hbmem).2
              simpa using this
            omega
          exact hab ((huniq a.1 hamax).trans (huniq b.1 hbmax).symm)
        · rw [if_neg htied]
          by_cases heq : (some imp : Option String) = some t0
          · rw [if_pos heq]
            have himpt0 : imp = t0 := Option.some.injEq _ _ ▸ heq
            refine ⟨"INOCENTES", _, rfl, ?_, ?_, ?_⟩
            · intro h0
              rw [h0] at ht0nab
              cases ht0nab
            · intro t₁ t₂ hne h1 h2
              exfalso
              have e1 := hmem_tied t₁ h1
              have e2 := hmem_tied t₂ h2
              have : (t₁, vals.count t₁) ≠ (t₂, vals.count t₂) := by
                intro he
                exact hne (congrArg Prod.fst he)
              exact htied (two_distinct_mem_one_lt_length e1 e2 this)
            · intro t ht huniq
              have htt0 : t0 = t := huniq t0 ht0max
              have hcond : t = imp := by rw [← htt0, himpt0]
              rw [if_pos hcond]
          · rw [if_neg heq, himpL]
            refine ⟨"IMPOSTOR", _, rfl, fun _ => rfl, fun _ _ _ _ _ => rfl, ?_⟩
            intro t ht huniq
            have htt0 : t0 = t := huniq t0 ht0max
            have htimp : t ≠ imp := by
              intro he
              apply heq
              rw [← he, ← htt0]
            rw [if_neg htimp]

/-- Spec vocabulary: the vote values after abstention fill-in. -/
def voteVals (g : Game) : List String := (fillVotes g.players g.votes).map (·.2)

/-- Spec vocabulary: the non-abstaining vote values. -/
def nonAbstVotes (g : Game) : List String := (voteVals g).filter (fun u => u ≠ ABSTAIN)

/-- Spec vocabulary: `t` holds the highest non-abstaining vote count of the
match at resolution time. -/
def IsMaxTarget (g : Game) (t : String) : Prop := maxTargetOf (voteVals g) t

theorem processVotesAux_eq (g1 : Game) (wm : String × String) (ip : Player)
    (wp : WordPair) (vt : List (String × Nat))
    (h1 : voteWinnerMessage g1.players g1.impostor_id (mkCounter (g1.votes.map (·.2))) = some wm)
    (h2 : impostorLookup g1.players g1.impostor_id = some ip)
    (h3 : g1.word_pair = some wp)
    (h4 : tallyNames g1.players (mkCounter (g1.votes.map (·.2))) [] = some vt) :
    processVotesAux g1 = some
      ({ winner := wm.1, message := wm.2, impostor_name := ip.name
         real_word := wp.inocente, fake_word := wp.impostor
         all_clues := g1.clues, votes_tally := vt },
       { g1 with results := some (
          { winner := wm.1, message := wm.2, impostor_name := ip.name
            real_word := wp.inocente, fake_word := wp.impostor
            all_clues := g1.clues, votes_tally := vt } : GameResults) }) := by
  rw [processVotesAux, h1, h2, h3, h4]

theorem processVotes_spec (g : Game) (imp : String) (ip : Player) (wp : WordPair)
    (himp : g.impostor_id = some imp) (hip : alGet g.players imp = some ip)
    (hwp : g.word_pair = some wp)
    (htgt : ∀ t ∈ g.votes.map (·.2), t = ABSTAIN ∨ (alGet g.players t).isSome = true) :
    ∃ res vt, processVotes g = some (res,
        { g with
          status := .finished
          timer_paused := true
          votes := fillVotes g.players g.votes
          results := some res }) ∧
      tallyNames g.players (mkCounter (voteVals g)) [] = some vt ∧
      res.votes_tally = vt ∧
      res.impostor_name = ip.name ∧
      (nonAbstVotes g = [] → res.winner = "IMPOSTOR") ∧
      (∀ t₁ t₂, t₁ ≠ t₂ → IsMaxTarget g t₁ → IsMaxTarget g t₂ → res.winner = "IMPOSTOR") ∧
      (∀ t, IsMaxTarget g t → (∀ u, IsMaxTarget g u → u = t) →
        res.winner = if t = imp then "INOCENTES" else "IMPOSTOR") := by
  have htgt' : ∀ kv ∈ mkCounter (voteVals g),
      kv.1 = ABSTAIN ∨ (alGet g.players kv.1).isSome = true := by
    intro kv hkv
    have hk1 : kv.1 ∈ voteVals g := by
      have : kv.1 ∈ alKeys (mkCounter (voteVals g)) := List.mem_map.2 ⟨kv, hkv, rfl⟩
      exact (mem_alKeys_mkCounter (voteVals g) kv.1).1 this
    rcases mem_map_snd_fillVotes g.players g.votes kv.1 hk1 with hm | he
    · exact htgt kv.1 hm
    · exact Or.inl he
  obtain ⟨w, m, hwm, hc1, hc2, hc3⟩ :=
    voteWinnerMessage_spec g.players imp ip (voteVals g) hip htgt'
  obtain ⟨vt, hvt⟩ := tallyNames_isSome g.players (mkCounter (voteVals g)) [] htgt'
  have himpL : impostorLookup g.players (some imp) = some ip := by
    rw [impostorLookup, hip]
  have hwm' : voteWinnerMessage g.players g.impostor_id (mkCounter (voteVals g)) =
      some (w, m) := by
    rw [himp]
    exact hwm
  have himpL' : impostorLookup g.players g.impostor_id = some ip := by
    rw [himp]
    exact himpL
  have heq := processVotesAux_eq
    { g with
      status := .finished
      timer_paused := true
      votes := fillVotes g.players g.votes }
    (w, m) ip wp vt hwm' himpL' hwp hvt
  refine ⟨{ winner := w, message := m, impostor_name := ip.name
            real_word := wp.inocente, fake_word := wp.impostor
            all_clues := g.clues, votes_tally := vt },
    vt, ?_, hvt, rfl, rfl, hc1, hc2, hc3⟩
  rw [processVotes]
  exact heq

/-! ### Turn-advance equation lemmas -/

theorem armClueTurn_eq (g : Game) (now : Int) (pid : String) (p : Player)
    (hpy : pyIndex g.players_turn_order g.current_turn_index = some pid)
    (hp : alGet g.players pid = some p) :
    armClueTurn g now = some { g with
      status := .inProgress
      timer_duration := g.config.clue_time
      timer_start_time := some now
      players := alSet g.players pid { p with has_given_clue := false } } := by
  rw [armClueTurn, hpy]
  simp only [hp]

theorem startNext_stay_eq (g : Game) (now : Int) (pid : String) (p : Player)
    (hlt : ¬ ((g.players_turn_order.length : Int) ≤ g.current_turn_index + 1))
    (hpy : pyIndex g.players_turn_order (g.current_turn_index + 1) = some pid)
    (hp : alGet g.players pid = some p) :
    startNextPlayerTurn g now = some { g with
      current_turn_index := g.current_turn_index + 1
      status := .inProgress
      timer_duration := g.config.clue_time
      timer_start_time := some now
      players := alSet g.players pid { p with has_given_clue := false } } := by
  rw [startNextPlayerTurn, if_neg hlt]
  exact armClueTurn_eq _ now pid p hpy hp

theorem startNext_wrap_eq (g : Game) (now : Int) (pid : String) (p : Player)
    (hge : (g.players_turn_order.length : Int) ≤ g.current_turn_index + 1)
    (hstay : ¬ (g.config.rounds_per_player < g.current_round + 1))
    (hpy : pyIndex g.players_turn_order 0 = some pid)
    (hp : alGet g.players pid = some p) :
    startNextPlayerTurn g now = some { g with
      current_round := g.current_round + 1
      current_turn_index := 0
      status := .inProgress
      timer_duration := g.config.clue_time
      timer_start_time := some now
      players := alSet g.players pid { p with has_given_clue := false } } := by
  rw [startNextPlayerTurn, if_pos hge, if_neg hstay]
  exact armClueTurn_eq _ now pid p hpy hp

theorem startNext_vote_eq (g : Game) (now : Int)
    (hge : (g.players_turn_order.length : Int) ≤ g.current_turn_index + 1)
    (hvote : g.config.rounds_per_player < g.current_round + 1) :
    startNextPlayerTurn g now = some { g with
      current_round := g.current_round + 1
      current_turn_index := 0
      status := .voting
      timer_duration := g.config.vote_time
      timer_start_time := some now } := by
  rw [startNextPlayerTurn, if_pos hge, if_pos hvote]

/-! ### `start_game` lemmas -/

theorem assignP_role (p : Player) (pid imp : String) (wp : WordPair) :
    (assignP p pid imp wp).role = some (if pid = imp then "IMPOSTOR" else "INOCENTE") := by
  rw [assignP]
  by_cases h : pid = imp <;> simp [h]

theorem assignP_word (p : Player) (pid imp : String) (wp : WordPair) :
    (assignP p pid imp wp).word = some (if pid = imp then wp.impostor else wp.inocente) := by
  rw [assignP]
  by_cases h : pid = imp <;> simp [h]

theorem alGet_map_keyfun {β : Type} (f : String → β) :
    ∀ (l : List String) (k : String), k ∈ l →
      alGet (l.map (fun x => (x, f x))) k = some (f k) := by
  intro l
  induction l with
  | nil => intro k hk; cases hk
  | cons x rest ih =>
    intro k hk
    rw [List.map_cons, alGet_cons]
    by_cases hx : x = k
    · simp [hx]
    · rw [if_neg hx]
      rcases List.mem_cons.1 hk with he | hm
      · exact absurd he.symm hx
      · exact ih k hm

theorem assignRoles_spec (wp : WordPair) (imp : String) :
    ∀ (order : List String) (players : List (String × Player)),
      order.Nodup → (∀ k ∈ order, k ∈ alKeys players) →
      ∃ players' priv, assignRoles order players wp imp = some (players', priv) ∧
        alKeys players' = alKeys players ∧
        (∀ k, k ∉ order → alGet players' k = alGet players k) ∧
        (∀ k p0, k ∈ order → alGet players k = some p0 →
          alGet players' k = some (assignP p0 k imp wp)) ∧
        priv = order.map (fun k =>
          (k, ({ word := if k = imp then wp.impostor else wp.inocente
                 role := if k = imp then "IMPOSTOR" else "INOCENTE" } : PrivData))) := by
  intro order
  induction order with
  | nil =>
    intro players _ _
    exact ⟨players, [], rfl, rfl, fun _ _ => rfl, fun k p0 hk => absurd hk (List.not_mem_nil k),
      rfl⟩
  | cons pid rest ih =>
    intro players hnd hcover
    have hpid : pid ∈ alKeys players := hcover pid (List.mem_cons_self _ _)
    obtain ⟨p, hp⟩ : ∃ p, alGet players pid = some p := by
      cases hg : alGet players pid with
      | none => exact absurd ((alGet_eq_none_iff _ _).1 hg) (fun hc => hc hpid)
      | some p => exact ⟨p, rfl⟩
    rw [List.nodup_cons] at hnd
    have hcover' : ∀ k ∈ rest, k ∈ alKeys (alSet players pid (assignP p pid imp wp)) := by
      intro k hk
      rw [alKeys_alSet_of_has _ (by rw [alHas, hp]; rfl)]
      exact hcover k (List.mem_cons_of_mem _ hk)
    obtain ⟨players', priv', hrec, hkeys', hnotin', hin', hpriv'⟩ :=
      ih (alSet players pid (assignP p pid imp wp)) hnd.2 hcover'
    refine ⟨players',
      (pid, { word := if pid = imp then wp.impostor else wp.inocente
              role := if pid = imp then "IMPOSTOR" else "INOCENTE" }) :: priv',
      ?_, ?_, ?_, ?_, ?_⟩
    · simp only [assignRoles, hp, hrec]
    · rw [hkeys', alKeys_alSet_of_has _ (by rw [alHas, hp]; rfl)]
    · intro k hk
      have hkpid : k ≠ pid := fun he => hk (by rw [he]; exact List.mem_cons_self _ _)
      have hkrest : k ∉ rest := fun hm => hk (List.mem_cons_of_mem _ hm)
      rw [hnotin' k hkrest, alGet_alSet_ne _ _ _ _ hkpid]
    · intro k p0 hk hp0
      rcases List.mem_cons.1 hk with he | hm
      · subst he
        have hpp0 : p = p0 := by
          rw [hp] at hp0
          exact Option.some.injEq _ _ ▸ hp0
        rw [hnotin' k hnd.1, alGet_alSet_self, hpp0]
      · have hkpid : k ≠ pid := fun he => hnd.1 (he ▸ hm)
        exact hin' k p0 hm (by rw [alGet_alSet_ne _ _ _ _ hkpid]; exact hp0)
    · rw [hpriv', List.map_cons]

/-! ### Field lemmas for the turn advance -/

theorem armClueTurn_fields {g : Game} {now : Int} {g' : Game}
    (h : armClueTurn g now = some g') :
    g'.clues = g.clues ∧ g'.config = g.config ∧ g'.timer_start_time = some now ∧
      g'.timer_duration = g.config.clue_time ∧ g'.status = .inProgress ∧
      g'.timer_paused = g.timer_paused ∧
      g'.players_turn_order = g.players_turn_order ∧
      g'.current_turn_index = g.current_turn_index ∧
      g'.current_round = g.current_round ∧
      g'.word_pair = g.word_pair ∧ g'.impostor_id = g.impostor_id ∧
      g'.votes = g.votes := by
  rw [armClueTurn] at h
  split at h
  · exact Option.noConfusion h
  · split at h
    · exact Option.noConfusion h
    · injection h with hg
      rw [← hg]
      exact ⟨rfl, rfl, rfl, rfl, rfl, rfl, rfl, rfl, rfl, rfl, rfl, rfl⟩

theorem startNext_fields {g : Game} {now : Int} {g' : Game}
    (h : startNextPlayerTurn g now = some g') :
    g'.clues = g.clues ∧ g'.config = g.config ∧ g'.timer_start_time = some now ∧
      g'.timer_paused = g.timer_paused ∧
      g'.players_turn_order = g.players_turn_order ∧
      g'.word_pair = g.word_pair ∧ g'.impostor_id = g.impostor_id ∧
      g'.votes = g.votes ∧
      (g'.status = .inProgress ∧ g'.timer_duration = g.config.clue_time ∨
        g'.status = .voting ∧ g'.timer_duration = g.config.vote_time) := by
  rw [startNextPlayerTurn] at h
  split_ifs at h with h1 h2
  · injection h with hg
    rw [← hg]
    exact ⟨rfl, rfl, rfl, rfl, rfl, rfl, rfl, rfl, Or.inr ⟨rfl, rfl⟩⟩
  · obtain ⟨hc, hcf, hts, htd, hstt, htp, hord, _, _, hwp, himp, hv⟩ := armClueTurn_fields h
    exact ⟨hc, hcf, hts, htp, hord, hwp, himp, hv, Or.inl ⟨hstt, by rw [htd]⟩⟩
  · obtain ⟨hc, hcf, hts, htd, hstt, htp, hord, _, _, hwp, himp, hv⟩ := armClueTurn_fields h
    exact ⟨hc, hcf, hts, htp, hord, hwp, himp, hv, Or.inl ⟨hstt, by rw [htd]⟩⟩

/-! ### `submit_clue` equation lemmas -/

theorem clue_map_no_error (o : Option Game) (msg : String) (g' : Game) :
    o.map (fun g2 => ((ClueResult.success : ClueResult), g2)) ≠ some (.error msg, g') := by
  cases o with
  | none => intro h; exact Option.noConfusion h
  | some g2 =>
    intro h
    injection h with ho
    injection ho with hr hg
    cases hr

theorem vote_map_no_error (o : Option (GameResults × Game)) (msg : String) (g' : Game) :
    o.map (fun rg => ((VoteResult.gameOver rg.1 : VoteResult), rg.2)) ≠ some (.error msg, g') := by
  cases o with
  | none => intro h; exact Option.noConfusion h
  | some rg =>
    intro h
    injection h with ho
    injection ho with hr hg
    cases hr

theorem submitClue_not_turn (g : Game) (pid text : String) (now : Int) (cur : String)
    (hst : g.status = .inProgress)
    (hcur : pyIndex g.players_turn_order g.current_turn_index = some cur)
    (hne : pid ≠ cur) :
    submitClue g pid text now = some (.error "Não é sua vez.", g) := by
  rw [submitClue, if_neg (fun hc => hc hst), hcur]
  simp only [if_pos hne]

theorem submitClue_already (g : Game) (pid text : String) (now : Int) (p : Player)
    (hst : g.status = .inProgress)
    (hcur : pyIndex g.players_turn_order g.current_turn_index = some pid)
    (hp : alGet g.players pid = some p)
    (hgiven : p.has_given_clue = true) :
    submitClue g pid text now = some (.error "Você já deu sua pista nesta rodada.", g) := by
  rw [submitClue, if_neg (fun hc => hc hst), hcur]
  simp only [if_neg (fun hc : pid ≠ pid => hc rfl), hp, if_pos hgiven]

theorem submitClue_badword (g : Game) (pid text : String) (now : Int) (p : Player)
    (hst : g.status = .inProgress)
    (hcur : pyIndex g.players_turn_order g.current_turn_index = some pid)
    (hp : alGet g.players pid = some p)
    (hgiven : p.has_given_clue = false)
    (hbad : pyStrip (pyUpper text) = "" ∨ 1 < (pySplit (pyStrip (pyUpper text))).length) :
    submitClue g pid text now = some (.error "A pista deve ser uma palavra única.", g) := by
  rw [submitClue, if_neg (fun hc => hc hst), hcur]
  simp only [if_neg (fun hc : pid ≠ pid => hc rfl), hp, if_neg (show ¬ p.has_given_clue = true from by simp [hgiven]),
    if_pos hbad]

theorem submitClue_secret (g : Game) (pid text : String) (now : Int) (p : Player)
    (hst : g.status = .inProgress)
    (hcur : pyIndex g.players_turn_order g.current_turn_index = some pid)
    (hp : alGet g.players pid = some p)
    (hgiven : p.has_given_clue = false)
    (hgood : ¬ (pyStrip (pyUpper text) = "" ∨ 1 < (pySplit (pyStrip (pyUpper text))).length))
    (hmatch : wordMatch g.word_pair (pyStrip (pyUpper text)) = true) :
    submitClue g pid text now = some (.error "A pista não pode ser a palavra secreta.", g) := by
  rw [submitClue, if_neg (fun hc => hc hst), hcur]
  simp only [if_neg (fun hc : pid ≠ pid => hc rfl), hp, if_neg (show ¬ p.has_given_clue = true from by simp [hgiven]),
    if_neg hgood, if_pos hmatch]

theorem submitClue_success_eq (g : Game) (pid text : String) (now : Int) (p : Player)
    (hst : g.status = .inProgress)
    (hcur : pyIndex g.players_turn_order g.current_turn_index = some pid)
    (hp : alGet g.players pid = some p)
    (hgiven : p.has_given_clue = false)
    (hgood : ¬ (pyStrip (pyUpper text) = "" ∨ 1 < (pySplit (pyStrip (pyUpper text))).length))
    (hmatch : wordMatch g.word_pair (pyStrip (pyUpper text)) = false) :
    submitClue g pid text now =
      (startNextPlayerTurn { g with
        clues := g.clues ++ [{ player_name := p.name, clue := pyStrip (pyUpper text) }]
        players := alSet g.players pid { p with has_given_clue := true } } now).map
        (fun g2 => (.success, g2)) := by
  rw [submitClue, if_neg (fun hc => hc hst), hcur]
  simp only [if_neg (fun hc : pid ≠ pid => hc rfl), hp, if_neg (show ¬ p.has_given_clue = true from by simp [hgiven]),
    if_neg hgood, if_neg (show ¬ wordMatch g.word_pair (pyStrip (pyUpper text)) = true from by simp [hmatch])]

theorem clue_map_success (o : Option Game) (g' : Game)
    (h : o.map (fun g2 => ((ClueResult.success : ClueResult), g2)) = some (.success, g')) :
    o = some g' := by
  cases o with
  | none => exact Option.noConfusion h
  | some g2 =>
    injection h with ho
    injection ho with hr hg
    rw [hg]

theorem submitClue_error_state (g : Game) (pid text : String) (now : Int)
    (msg : String) (g' : Game)
    (h : submitClue g pid text now = some (.error msg, g')) : g' = g := by
  rw [submitClue] at h
  split_ifs at h
  all_goals try (injection h with ho; injection ho with hr hg; exact hg.symm)
  all_goals split at h
  all_goals try exact Option.noConfusion h
  all_goals split_ifs at h
  all_goals try (injection h with ho; injection ho with hr hg; exact hg.symm)
  all_goals split at h
  all_goals try exact Option.noConfusion h
  all_goals split_ifs at h
  all_goals try (injection h with ho; injection ho with hr hg; exact hg.symm)
  all_goals exact absurd h (clue_map_no_error _ msg g')

/-! ### `check_timer` lemmas -/

/-- Spec vocabulary: the timer guard of `check_timer` passes — a deadline
is set (and nonzero, matching Python's truthiness test), not paused, and
reached by `now`. -/
def timerFired (g : Game) (now : Int) : Prop :=
  ∃ st, g.timer_start_time = some st ∧ st ≠ 0 ∧ g.timer_paused = false ∧
    g.timer_duration ≤ now - st

theorem checkTimer_noop (g : Game) (now : Int) (h : ¬ timerFired g now) :
    checkTimer g now = some (none, g) := by
  cases hst : g.timer_start_time with
  | none => rw [checkTimer, hst]
  | some st =>
    by_cases h1 : st ≠ 0 ∧ g.timer_paused = false
    · have h2 : ¬ g.timer_duration ≤ now - st := by
        intro h2
        exact h ⟨st, hst, h1.1, h1.2, h2⟩
      rw [checkTimer, hst]
      simp only [if_pos h1, if_neg h2]
    · rw [checkTimer, hst]
      simp only [if_neg h1]

theorem checkTimer_fire_clue (g : Game) (now st : Int) (pid : String) (p : Player)
    (hst : g.timer_start_time = some st) (hs0 : st ≠ 0)
    (hpause : g.timer_paused = false) (hdl : g.timer_duration ≤ now - st)
    (hstatus : g.status = .inProgress)
    (hpy : pyIndex g.players_turn_order g.current_turn_index = some pid)
    (hp : alGet g.players pid = some p) (hnotclued : p.has_given_clue = false) :
    checkTimer g now = (startNextPlayerTurn { g with
      clues := g.clues ++
        [{ player_name := p.name, clue := "(Pista Perdida - Tempo Esgotado)" }]
      players := alSet g.players pid { p with has_given_clue := true } } now).map
      (fun g2 => (some .turnSkipped, g2)) := by
  rw [checkTimer, hst]
  simp only [if_pos (show st ≠ 0 ∧ g.timer_paused = false from ⟨hs0, hpause⟩), if_pos hdl, if_pos hstatus, hpy, hp,
    if_neg (show ¬ p.has_given_clue = true from by simp [hnotclued])]

theorem checkTimer_fire_clue_already (g : Game) (now st : Int) (pid : String) (p : Player)
    (hst : g.timer_start_time = some st) (hs0 : st ≠ 0)
    (hpause : g.timer_paused = false) (hdl : g.timer_duration ≤ now - st)
    (hstatus : g.status = .inProgress)
    (hpy : pyIndex g.players_turn_order g.current_turn_index = some pid)
    (hp : alGet g.players pid = some p) (hclued : p.has_given_clue = true) :
    checkTimer g now = (startNextPlayerTurn g now).map
      (fun g2 => (some .turnSkipped, g2)) := by
  rw [checkTimer, hst]
  simp only [if_pos (show st ≠ 0 ∧ g.timer_paused = false from ⟨hs0, hpause⟩), if_pos hdl, if_pos hstatus, hpy, hp, if_pos hclued]

theorem checkTimer_fire_vote (g : Game) (now st : Int)
    (hst : g.timer_start_time = some st) (hs0 : st ≠ 0)
    (hpause : g.timer_paused = false) (hdl : g.timer_duration ≤ now - st)
    (hstatus : g.status = .voting) :
    checkTimer g now = (processVotes g).map
      (fun rg => (some (.gameOver rg.1), rg.2)) := by
  have hnip : ¬ g.status = .inProgress := by rw [hstatus]; decide
  rw [checkTimer, hst]
  simp only [if_pos (show st ≠ 0 ∧ g.timer_paused = false from ⟨hs0, hpause⟩), if_pos hdl, if_neg hnip, if_pos hstatus]

theorem skip_map_inv (o : Option Game) (r : Option TimerEvent) (g' : Game)
    (h : o.map (fun g2 => ((some TimerEvent.turnSkipped : Option TimerEvent), g2)) =
      some (r, g')) : o = some g' := by
  cases o with
  | none => exact Option.noConfusion h
  | some g2 =>
    injection h with ho
    injection ho with hr hg
    rw [hg]

theorem processVotesAux_post {g1 : Game} {res : GameResults} {g2 : Game}
    (h : processVotesAux g1 = some (res, g2)) :
    g2 = { g1 with results := some res } := by
  rw [processVotesAux] at h
  split at h
  · injection h with hp
    injection hp with hr hg
    rw [← hg, ← hr]
  · exact Option.noConfusion h

theorem processVotes_post {g : Game} {res : GameResults} {g2 : Game}
    (h : processVotes g = some (res, g2)) :
    g2 = { g with
      status := .finished
      timer_paused := true
      votes := fillVotes g.players g.votes
      results := some res } := by
  rw [processVotes] at h
  exact processVotesAux_post h

/-! ### Reachability: externally triggered transitions of one match -/

/-- One externally triggered transition of a match, as dispatched by the
WebSocket server: a join, a leave, a host start, a clue submission, a
vote, or a timer tick.  The random draws of `start_game` are passed in
with their contracts: the word pair is drawn from the configured list,
the turn order is a shuffle (permutation) of the participant ids, and the
impostor is drawn from the turn order.  Operations that raise (return
`none`) leave no successor. -/
inductive Step : Game → Game → Prop where
  | add (g : Game) (pid name : String) : Step g (addPlayer g pid name).2
  | remove (g : Game) (pid : String) : Step g (removePlayer g pid).2
  | start (g g' : Game) (wp : WordPair) (order : List String) (imp : String)
      (now : Int) (r : StartResult)
      (hwp : wp ∈ g.words)
      (horder : List.Perm order (alKeys g.players))
      (himp : imp ∈ order)
      (h : startGame g wp order imp now = some (r, g')) : Step g g'
  | clue (g g' : Game) (pid text : String) (now : Int) (r : ClueResult)
      (h : submitClue g pid text now = some (r, g')) : Step g g'
  | vote (g g' : Game) (voter voted : String) (r : VoteResult)
      (h : submitVote g voter voted = some (r, g')) : Step g g'
  | tick (g g' : Game) (now : Int) (ev : Option TimerEvent)
      (h : checkTimer g now = some (ev, g')) : Step g g'

/-- Zero or more transitions. -/
inductive Reach : Game → Game → Prop where
  | refl (g : Game) : Reach g g
  | tail {g1 g2 g3 : Game} : Reach g1 g2 → Step g2 g3 → Reach g1 g3

/-- A freshly created match (`Game.__init__` via `create_game`). -/
def Initial (g : Game) : Prop :=
  ∃ gid hid hname words config, g = mkGame gid hid hname words config

theorem pyIndex_nonneg_some {α : Type} {l : List α} {i : Int} {a : α}
    (hi : 0 ≤ i) (h : pyIndex l i = some a) : i < (l.length : Int) := by
  rw [pyIndex, if_pos hi] at h
  have hlt := (List.get?_eq_some.1 h).1
  omega

/-! ### Operation inversion lemmas -/

theorem addPlayer_cases (g : Game) (pid n : String) :
    (addPlayer g pid n).2 = g ∨
    (g.status = .waitingForPlayers ∧
      (addPlayer g pid n).2 =
        { g with players := alSet g.players pid { id := pid, name := n } }) := by
  rw [addPlayer]
  split_ifs with h
  · exact Or.inl rfl
  · refine Or.inr ⟨?_, rfl⟩
    by_contra hc
    exact h (Or.inl hc)

theorem removePlayer_cases (g : Game) (pid : String) :
    (removePlayer g pid).2 = g ∨
    (removePlayer g pid).2 = { g with players := alErase g.players pid } := by
  rw [removePlayer]
  split_ifs
  · exact Or.inl rfl
  · exact Or.inr rfl
  · exact Or.inl rfl

theorem armClueTurn_inv {g : Game} {now : Int} {g' : Game}
    (h : armClueTurn g now = some g') :
    ∃ pid p, pyIndex g.players_turn_order g.current_turn_index = some pid ∧
      alGet g.players pid = some p ∧
      g' = { g with
        status := .inProgress
        timer_duration := g.config.clue_time
        timer_start_time := some now
        players := alSet g.players pid { p with has_given_clue := false } } := by
  rw [armClueTurn] at h
  split at h
  · exact Option.noConfusion h
  · rename_i pid hpy
    split at h
    · exact Option.noConfusion h
    · rename_i p hp
      injection h with hg
      exact ⟨pid, p, hpy, hp, hg.symm⟩

theorem startNext_inv {g : Game} {now : Int} {g' : Game}
    (h : startNextPlayerTurn g now = some g') :
    ((g.players_turn_order.length : Int) ≤ g.current_turn_index + 1 ∧
     g.config.rounds_per_player < g.current_round + 1 ∧
     g' = { g with
       current_round := g.current_round + 1
       current_turn_index := 0
       status := .voting
       timer_duration := g.config.vote_time
       timer_start_time := some now }) ∨
    ((g.players_turn_order.length : Int) ≤ g.current_turn_index + 1 ∧
     ¬ g.config.rounds_per_player < g.current_round + 1 ∧
     armClueTurn { g with
       current_round := g.current_round + 1
       current_turn_index := 0 } now = some g') ∨
    (¬ (g.players_turn_order.length : Int) ≤ g.current_turn_index + 1 ∧
     armClueTurn { g with
       current_turn_index := g.current_turn_index + 1 } now = some g') := by
  rw [startNextPlayerTurn] at h
  split_ifs at h with h1 h2
  · injection h with hg
    exact Or.inl ⟨h1, h2, hg.symm⟩
  · exact Or.inr (Or.inl ⟨h1, h2, h⟩)
  · exact Or.inr (Or.inr ⟨h1, h⟩)

theorem startGame_inv {g : Game} {wp : WordPair} {order : List String} {imp : String}
    {now : Int} {r : StartResult} {g' : Game}
    (h : startGame g wp order imp now = some (r, g')) :
    g' = g ∨
    (g.status = .waitingForPlayers ∧ ¬ g.players.length < MIN_PLAYERS ∧
     ∃ players2 priv,
       assignRoles order g.players wp imp = some (players2, priv) ∧
       startNextPlayerTurn { g with
         status := .inProgress
         word_pair := some wp
         players_turn_order := order
         impostor_id := some imp
         players := players2
         current_round := 1
         current_turn_index := -1 } now = some g') := by
  rw [startGame] at h
  split_ifs at h with h1 h2
  · injection h with ho
    injection ho with hr hg
    exact Or.inl hg.symm
  · injection h with ho
    injection ho with hr hg
    exact Or.inl hg.symm
  · split at h
    · exact Option.noConfusion h
    · rename_i ps priv har
      split at h
      · exact Option.noConfusion h
      · rename_i g3 hsn
        injection h with ho
        injection ho with hr hg
        exact Or.inr ⟨not_not.mp h2, h1, ps, priv, har, hg ▸ hsn⟩

theorem clue_map_some (o : Option Game) (r : ClueResult) (g' : Game)
    (h : o.map (fun g2 => ((ClueResult.success : ClueResult), g2)) = some (r, g')) :
    o = some g' := by
  cases o with
  | none => exact Option.noConfusion h
  | some g2 =>
    injection h with ho
    injection ho with hr hg
    rw [hg]

theorem submitClue_inv {g : Game} {pid text : String} {now : Int} {r : ClueResult}
    {g' : Game} (h : submitClue g pid text now = some (r, g')) :
    g' = g ∨
    (g.status = .inProgress ∧
     ∃ p, alGet g.players pid = some p ∧
       startNextPlayerTurn { g with
         clues := g.clues ++
           [{ player_name := p.name, clue := pyStrip (pyUpper text) }]
         players := alSet g.players pid { p with has_given_clue := true } } now =
         some g') := by
  rw [submitClue] at h
  by_cases h1 : g.status ≠ .inProgress
  · rw [if_pos h1] at h
    injection h with ho
    injection ho with hr hg
    exact Or.inl hg.symm
  · rw [if_neg h1] at h
    split at h
    · exact Option.noConfusion h
    · rename_i cur hcur
      by_cases h2 : pid ≠ cur
      · rw [if_pos h2] at h
        injection h with ho
        injection ho with hr hg
        exact Or.inl hg.symm
      · rw [if_neg h2] at h
        split at h
        · exact Option.noConfusion h
        · rename_i p hp
          by_cases h3 : p.has_given_clue = true
          · rw [if_pos h3] at h
            injection h with ho
            injection ho with hr hg
            exact Or.inl hg.symm
          · rw [if_neg h3] at h
            by_cases h4 : pyStrip (pyUpper text) = "" ∨
                1 < (pySplit (pyStrip (pyUpper text))).length
            · rw [if_pos h4] at h
              injection h with ho
              injection ho with hr hg
              exact Or.inl hg.symm
            · rw [if_neg h4] at h
              by_cases h5 : wordMatch g.word_pair (pyStrip (pyUpper text)) = true
              · rw [if_pos h5] at h
                injection h with ho
                injection ho with hr hg
                exact Or.inl hg.symm
              · rw [if_neg h5] at h
                exact Or.inr ⟨not_not.mp h1, p, hp, clue_map_some _ _ _ h⟩

theorem vote_map_some (o : Option (GameResults × Game)) (r : VoteResult) (g' : Game)
    (h : o.map (fun rg => ((VoteResult.gameOver rg.1 : VoteResult), rg.2)) =
      some (r, g')) :
    ∃ res, o = some (res, g') := by
  cases o with
  | none => exact Option.noConfusion h
  | some rg =>
    injection h with ho
    injection ho with hr hg
    exact ⟨rg.1, by rw [← hg]⟩

theorem submitVote_inv {g : Game} {voter voted : String} {r : VoteResult} {g' : Game}
    (h : submitVote g voter voted = some (r, g')) :
    g' = g ∨
    (g.status = .voting ∧
     ∃ p, alGet g.players voter = some p ∧
       (g' = { g with
          votes := alSet g.votes voter voted
          players := alSet g.players voter { p with has_voted := true } } ∨
        ∃ res, processVotes { g with
          votes := alSet g.votes voter voted
          players := alSet g.players voter { p with has_voted := true } } =
            some (res, g'))) := by
  rw [submitVote] at h
  split_ifs at h with h1 h2 h3
  · injection h with ho
    injection ho with hr hg
    exact Or.inl hg.symm
  · injection h with ho
    injection ho with hr hg
    exact Or.inl hg.symm
  · injection h with ho
    injection ho with hr hg
    exact Or.inl hg.symm
  · split at h
    · exact Option.noConfusion h
    · rename_i p hp
      split_ifs at h
      all_goals try (injection h with ho; injection ho with hr hg; exact Or.inl hg.symm)
      · obtain ⟨res, heq⟩ := vote_map_some _ _ _ h
        exact Or.inr ⟨not_not.mp h1, p, hp, Or.inr ⟨res, heq⟩⟩
      · injection h with ho
        injection ho with hr hg
        exact Or.inr ⟨not_not.mp h1, p, hp, Or.inl hg.symm⟩

theorem tick_vote_map_some (o : Option (GameResults × Game)) (ev : Option TimerEvent)
    (g' : Game)
    (h : o.map (fun rg => ((some (TimerEvent.gameOver rg.1) : Option TimerEvent), rg.2)) =
      some (ev, g')) :
    ∃ res, o = some (res, g') := by
  cases o with
  | none => exact Option.noConfusion h
  | some rg =>
    injection h with ho
    injection ho with hr hg
    exact ⟨rg.1, by rw [← hg]⟩

theorem checkTimer_inv {g : Game} {now : Int} {ev : Option TimerEvent} {g' : Game}
    (h : checkTimer g now = some (ev, g')) :
    g' = g ∨
    (g.status = .inProgress ∧
     ∃ pid p, pyIndex g.players_turn_order g.current_turn_index = some pid ∧
       alGet g.players pid = some p ∧
       ((p.has_given_clue = true ∧ startNextPlayerTurn g now = some g') ∨
        (p.has_given_clue = false ∧
         startNextPlayerTurn { g with
           clues := g.clues ++
             [{ player_name := p.name, clue := "(Pista Perdida - Tempo Esgotado)" }]
           players := alSet g.players pid { p with has_given_clue := true } } now =
           some g'))) ∨
    (g.status = .voting ∧ ∃ res, processVotes g = some (res, g')) := by
  rw [checkTimer] at h
  split at h
  · injection h with ho
    injection ho with hr hg
    exact Or.inl hg.symm
  · rename_i st hst
    split_ifs at h with h1 h2 h3 h4
    · split at h
      · exact Option.noConfusion h
      · rename_i pid hpy
        split at h
        · exact Option.noConfusion h
        · rename_i p hp
          by_cases hc : p.has_given_clue = true
          · rw [if_pos hc] at h
            exact Or.inr (Or.inl ⟨h3, pid, p, hpy, hp,
              Or.inl ⟨hc, skip_map_inv _ _ _ h⟩⟩)
          · rw [if_neg hc] at h
            have hcf : p.has_given_clue = false := by simpa using hc
            exact Or.inr (Or.inl ⟨h3, pid, p, hpy, hp,
              Or.inr ⟨hcf, skip_map_inv _ _ _ h⟩⟩)
    · obtain ⟨res, heq⟩ := tick_vote_map_some _ _ _ h
      exact Or.inr (Or.inr ⟨h4, res, heq⟩)
    · injection h with ho
      injection ho with hr hg
      exact Or.inl hg.symm
    · injection h with ho
      injection ho with hr hg
      exact Or.inl hg.symm
    · injection h with ho
      injection ho with hr hg
      exact Or.inl hg.symm

/-! ### Invariants over reachable states -/

/-- The clue-round bookkeeping invariant (`R` = configured rounds per
participant, `N` = length of the turn order): in the lobby the clue log
is empty; during ClueRounds the round and seat counters stay in range,
the clue log holds exactly `(round-1)*N + seat` entries, and the current
seat (when still a participant) has not clued this turn; in Voting and
Finished the clue log holds exactly `R*N` entries, and in Voting the vote
timer is armed. -/
def InvC3 (g : Game) : Prop :=
  1 ≤ g.config.rounds_per_player ∧
  (g.status = .waitingForPlayers → g.clues = [] ∧ g.timer_paused = false) ∧
  (g.status = .inProgress →
    1 ≤ g.current_round ∧
    g.current_round ≤ g.config.rounds_per_player ∧
    0 ≤ g.current_turn_index ∧
    g.current_turn_index < (g.players_turn_order.length : Int) ∧
    (g.clues.length : Int) =
      (g.current_round - 1) * (g.players_turn_order.length : Int) +
        g.current_turn_index ∧
    g.timer_paused = false ∧
    (∀ pid p, pyIndex g.players_turn_order g.current_turn_index = some pid →
      alGet g.players pid = some p → p.has_given_clue = false)) ∧
  (g.status = .voting →
    (g.clues.length : Int) =
      g.config.rounds_per_player * (g.players_turn_order.length : Int) ∧
    g.timer_duration = g.config.vote_time ∧
    g.timer_paused = false ∧
    ∃ t, g.timer_start_time = some t) ∧
  (g.status = .finished →
    (g.clues.length : Int) =
      g.config.rounds_per_player * (g.players_turn_order.length : Int))

/-- Once out of the lobby, the secret word pair and the impostor id are
set. -/
def Inv2 (g : Game) : Prop :=
  g.status ≠ .waitingForPlayers → g.word_pair.isSome = true ∧ g.impostor_id.isSome = true

/-- `_start_next_player_turn` re-establishes `InvC3` when called on a
state whose counters describe the position after one more clue-log entry
(`hcnt`: the log already holds `(round-1)*N + (seat+1)` entries). -/
theorem startNext_establishes {g1 : Game} {now : Int} {g' : Game}
    (hsn : startNextPlayerTurn g1 now = some g')
    (hR : 1 ≤ g1.config.rounds_per_player)
    (hr1 : 1 ≤ g1.current_round)
    (hr2 : g1.current_round ≤ g1.config.rounds_per_player)
    (hi1 : 0 ≤ g1.current_turn_index + 1)
    (hi2 : g1.current_turn_index < (g1.players_turn_order.length : Int))
    (hcnt : (g1.clues.length : Int) =
      (g1.current_round - 1) * (g1.players_turn_order.length : Int) +
        (g1.current_turn_index + 1))
    (hpause : g1.timer_paused = false) :
    InvC3 g' := by
  rcases startNext_inv hsn with ⟨hc, hrc, hg⟩ | ⟨hc, hrc, harm⟩ | ⟨hc, harm⟩
  · subst hg
    have hiN : g1.current_turn_index + 1 = (g1.players_turn_order.length : Int) := by
      omega
    have hrR : g1.current_round = g1.config.rounds_per_player := by omega
    refine ⟨hR, ?_, ?_, ?_, ?_⟩
    · intro hst
      simp at hst
    · intro hst
      simp at hst
    · intro _
      refine ⟨?_, rfl, hpause, now, rfl⟩
      show (g1.clues.length : Int) =
        g1.config.rounds_per_player * (g1.players_turn_order.length : Int)
      rw [hcnt, hiN, hrR]
      ring
    · intro hst
      simp at hst
  · obtain ⟨pid, p, hpy, hp, hg⟩ := armClueTurn_inv harm
    subst hg
    have hpy0 : pyIndex g1.players_turn_order 0 = some pid := hpy
    have hp0 : alGet g1.players pid = some p := hp
    have hiN : g1.current_turn_index + 1 = (g1.players_turn_order.length : Int) := by
      omega
    have hb := pyIndex_nonneg_some (le_refl 0) hpy0
    refine ⟨hR, ?_, ?_, ?_, ?_⟩
    · intro hst
      simp at hst
    · intro _
      refine ⟨?_, ?_, ?_, ?_, ?_, hpause, ?_⟩
      · show (1 : Int) ≤ g1.current_round + 1
        omega
      · show g1.current_round + 1 ≤ g1.config.rounds_per_player
        omega
      · show (0 : Int) ≤ 0
        omega
      · show (0 : Int) < (g1.players_turn_order.length : Int)
        exact hb
      · show (g1.clues.length : Int) =
          (g1.current_round + 1 - 1) * (g1.players_turn_order.length : Int) + 0
        rw [hcnt, hiN]
        ring
      · intro pid2 p2 hpy2 hget2
        have hpy2' : pyIndex g1.players_turn_order 0 = some pid2 := hpy2
        rw [hpy0] at hpy2'
        injection hpy2' with hpid
        have hget2' : alGet (alSet g1.players pid
            { p with has_given_clue := false }) pid2 = some p2 := hget2
        rw [← hpid] at hget2'
        rw [alGet_alSet_self] at hget2'
        injection hget2' with hp2
        rw [← hp2]
    · intro hst
      simp at hst
    · intro hst
      simp at hst
  · obtain ⟨pid, p, hpy, hp, hg⟩ := armClueTurn_inv harm
    subst hg
    have hpy0 : pyIndex g1.players_turn_order (g1.current_turn_index + 1) = some pid := hpy
    have hp0 : alGet g1.players pid = some p := hp
    have hb := pyIndex_nonneg_some hi1 hpy0
    refine ⟨hR, ?_, ?_, ?_, ?_⟩
    · intro hst
      simp at hst
    · intro _
      refine ⟨hr1, hr2, hi1, ?_, ?_, hpause, ?_⟩
      · show g1.current_turn_index + 1 < (g1.players_turn_order.length : Int)
        exact hb
      · show (g1.clues.length : Int) =
          (g1.current_round - 1) * (g1.players_turn_order.length : Int) +
            (g1.current_turn_index + 1)
        exact hcnt
      · intro pid2 p2 hpy2 hget2
        have hpy2' : pyIndex g1.players_turn_order (g1.current_turn_index + 1) =
            some pid2 := hpy2
        rw [hpy0] at hpy2'
        injection hpy2' with hpid
        have hget2' : alGet (alSet g1.players pid
            { p with has_given_clue := false }) pid2 = some p2 := hget2
        rw [← hpid] at hget2'
        rw [alGet_alSet_self] at hget2'
        injection hget2' with hp2
        rw [← hp2]
    · intro hst
      simp at hst
    · intro hst
      simp at hst

/-- `InvC3` is preserved by every transition. -/
theorem invC3_step {g g' : Game} (hinv : InvC3 g) (hs : Step g g') : InvC3 g' := by
  obtain ⟨hR, hwait, hprog, hvote, hfin⟩ := hinv
  cases hs with
  | add pid name =>
    rcases addPlayer_cases g pid name with heq | ⟨hw, heq⟩
    · rw [heq]
      exact ⟨hR, hwait, hprog, hvote, hfin⟩
    · rw [heq]
      refine ⟨hR, hwait, ?_, hvote, hfin⟩
      intro hst
      have hst' : g.status = .inProgress := hst
      rw [hw] at hst'
      exact absurd hst' (by decide)
  | remove pid =>
    rcases removePlayer_cases g pid with heq | heq
    · rw [heq]
      exact ⟨hR, hwait, hprog, hvote, hfin⟩
    · rw [heq]
      refine ⟨hR, hwait, ?_, hvote, hfin⟩
      intro hst
      obtain ⟨h1, h2, h3, h4, h5, h6, h7⟩ := hprog hst
      refine ⟨h1, h2, h3, h4, h5, h6, ?_⟩
      intro pid2 p2 hpy2 hget2
      have hget2' : alGet (alErase g.players pid) pid2 = some p2 := hget2
      exact h7 pid2 p2 hpy2 (alGet_erase_some hget2')
  | start _ wp order imp now r hwp horder himp hop =>
    rcases startGame_inv hop with heq | ⟨hw, hlen, ps, priv, har, hsn⟩
    · rw [heq]
      exact ⟨hR, hwait, hprog, hvote, hfin⟩
    · have hwc := hwait hw
      refine startNext_establishes hsn hR (le_refl 1) hR ?_ ?_ ?_ hwc.2
      · show (0 : Int) ≤ -1 + 1
        omega
      · show (-1 : Int) < (order.length : Int)
        omega
      · show (g.clues.length : Int) =
          (1 - 1) * (order.length : Int) + (-1 + 1)
        rw [hwc.1]
        norm_num
  | clue _ pid text now r hop =>
    rcases submitClue_inv hop with heq | ⟨hip, p, hp, hsn⟩
    · rw [heq]
      exact ⟨hR, hwait, hprog, hvote, hfin⟩
    · obtain ⟨h1, h2, h3, h4, h5, h6, h7⟩ := hprog hip
      refine startNext_establishes hsn hR h1 h2 ?_ ?_ ?_ h6
      · show (0 : Int) ≤ g.current_turn_index + 1
        omega
      · show g.current_turn_index < (g.players_turn_order.length : Int)
        exact h4
      · show ((g.clues ++
            [({ player_name := p.name,
                clue := pyStrip (pyUpper text) } : ClueEntry)]).length : Int) =
          (g.current_round - 1) * (g.players_turn_order.length : Int) +
            (g.current_turn_index + 1)
        rw [List.length_append, List.length_singleton]
        push_cast
        linarith [h5]
  | vote _ voter voted r hop =>
    rcases submitVote_inv hop with heq | ⟨hv, p, hp, hcase⟩
    · rw [heq]
      exact ⟨hR, hwait, hprog, hvote, hfin⟩
    · have hV := hvote hv
      rcases hcase with heq | ⟨res, heq⟩
      · rw [heq]
        refine ⟨hR, ?_, ?_, fun _ => hV, hfin⟩
        · intro hst
          exact absurd (hv.symm.trans hst) (by decide)
        · intro hst
          exact absurd (hv.symm.trans hst) (by decide)
      · have hpost := processVotes_post heq
        rw [hpost]
        refine ⟨hR, ?_, ?_, ?_, fun _ => hV.1⟩
        · intro hst
          simp at hst
        · intro hst
          simp at hst
        · intro hst
          simp at hst
  | tick _ now ev hop =>
    rcases checkTimer_inv hop with heq | ⟨hipr, pid, p, hpy, hp, hcase⟩ | ⟨hv, res, heq⟩
    · rw [heq]
      exact ⟨hR, hwait, hprog, hvote, hfin⟩
    · obtain ⟨h1, h2, h3, h4, h5, h6, h7⟩ := hprog hipr
      rcases hcase with ⟨hclued, hsn⟩ | ⟨hnc, hsn⟩
      · rw [h7 pid p hpy hp] at hclued
        exact Bool.noConfusion hclued
      · refine startNext_establishes hsn hR h1 h2 ?_ ?_ ?_ h6
        · show (0 : Int) ≤ g.current_turn_index + 1
          omega
        · show g.current_turn_index < (g.players_turn_order.length : Int)
          exact h4
        · show ((g.clues ++
              [({ player_name := p.name,
                  clue := "(Pista Perdida - Tempo Esgotado)" } : ClueEntry)]).length : Int) =
            (g.current_round - 1) * (g.players_turn_order.length : Int) +
              (g.current_turn_index + 1)
          rw [List.length_append, List.length_singleton]
          push_cast
          linarith [h5]
    · have hV := hvote hv
      have hpost := processVotes_post heq
      rw [hpost]
      refine ⟨hR, ?_, ?_, ?_, fun _ => hV.1⟩
      · intro hst
        simp at hst
      · intro hst
        simp at hst
      · intro hst
        simp at hst

/-- `Inv2` is preserved by every transition. -/
theorem inv2_step {g g' : Game} (hinv : Inv2 g) (hs : Step g g') : Inv2 g' := by
  cases hs with
  | add pid name =>
    rcases addPlayer_cases g pid name with heq | ⟨hw, heq⟩
    · rw [heq]
      exact hinv
    · rw [heq]
      intro hst
      exact absurd hw hst
  | remove pid =>
    rcases removePlayer_cases g pid with heq | heq
    · rw [heq]
      exact hinv
    · rw [heq]
      intro hst
      exact hinv hst
  | start _ wp order imp now r hwp horder himp hop =>
    rcases startGame_inv hop with heq | ⟨hw, hlen, ps, priv, har, hsn⟩
    · rw [heq]
      exact hinv
    · intro _
      have hf := startNext_fields hsn
      constructor
      · rw [hf.2.2.2.2.2.1]
        rfl
      · rw [hf.2.2.2.2.2.2.1]
        rfl
  | clue _ pid text now r hop =>
    rcases submitClue_inv hop with heq | ⟨hip, p, hp, hsn⟩
    · rw [heq]
      exact hinv
    · intro _
      have hf := startNext_fields hsn
      have hg := hinv (by rw [hip]; decide)
      constructor
      · rw [hf.2.2.2.2.2.1]
        exact hg.1
      · rw [hf.2.2.2.2.2.2.1]
        exact hg.2
  | vote _ voter voted r hop =>
    rcases submitVote_inv hop with heq | ⟨hv, p, hp, hcase⟩
    · rw [heq]
      exact hinv
    · have hg := hinv (by rw [hv]; decide)
      rcases hcase with heq | ⟨res, heq⟩
      · rw [heq]
        intro _
        exact hg
      · have hpost := processVotes_post heq
        rw [hpost]
        intro _
        exact hg
  | tick _ now ev hop =>
    rcases checkTimer_inv hop with heq | ⟨hipr, pid, p, hpy, hp, hcase⟩ | ⟨hv, res, heq⟩
    · rw [heq]
      exact hinv
    · have hg := hinv (by rw [hipr]; decide)
      rcases hcase with ⟨hclued, hsn⟩ | ⟨hnc, hsn⟩ <;>
      · have hf := startNext_fields hsn
        intro _
        exact ⟨by rw [hf.2.2.2.2.2.1]; exact hg.1,
               by rw [hf.2.2.2.2.2.2.1]; exact hg.2⟩
    · have hg := hinv (by rw [hv]; decide)
      have hpost := processVotes_post heq
      rw [hpost]
      intro _
      exact hg

theorem invC3_reach {g0 g : Game} (hr : Reach g0 g) (h0 : InvC3 g0) : InvC3 g := by
  induction hr with
  | refl => exact h0
  | tail hr hs ih => exact invC3_step ih hs

theorem inv2_reach {g0 g : Game} (hr : Reach g0 g) (h0 : Inv2 g0) : Inv2 g := by
  induction hr with
  | refl => exact h0
  | tail hr hs ih => exact inv2_step ih hs

theorem invC3_initial {g : Game} (h : Initial g)
    (hR : 1 ≤ g.config.rounds_per_player) : InvC3 g := by
  obtain ⟨gid, hid, hname, words, config, rfl⟩ := h
  refine ⟨hR, fun _ => ⟨rfl, rfl⟩, fun hst => ?_, fun hst => ?_, fun hst => ?_⟩ <;>
    (rw [show (mkGame gid hid hname words config).status = .waitingForPlayers from rfl]
      at hst; exact absurd hst (by decide))

theorem inv2_initial {g : Game} (h : Initial g) : Inv2 g := by
  obtain ⟨gid, hid, hname, words, config, rfl⟩ := h
  intro hst
  exact absurd rfl hst

/-- After the transition to Voting (or on to Finished), ClueRounds is
never re-entered. -/
theorem step_no_reenter {g g' : Game} (h : Step g g')
    (hs : g.status = .voting ∨ g.status = .finished) : g'.status ≠ .inProgress := by
  have hgs : g.status ≠ .inProgress := by
    rcases hs with h1 | h1 <;> (rw [h1]; decide)
  cases h with
  | add pid name =>
    rcases addPlayer_cases g pid name with heq | ⟨hw, heq⟩
    · rw [heq]
      exact hgs
    · rw [heq]
      intro hst
      exact hgs hst
  | remove pid =>
    rcases removePlayer_cases g pid with heq | heq
    · rw [heq]
      exact hgs
    · rw [heq]
      intro hst
      exact hgs hst
  | start _ wp order imp now r hwp horder himp hse =>
    rcases startGame_inv hse with heq | ⟨hw, _, _, _, _, _⟩
    · rw [heq]
      exact hgs
    · rcases hs with h1 | h1 <;> (rw [h1] at hw; exact absurd hw (by decide))
  | clue _ pid text now r hse =>
    rcases submitClue_inv hse with heq | ⟨hip, _, _, _⟩
    · rw [heq]
      exact hgs
    · exact absurd hip hgs
  | vote _ voter voted r hse =>
    rcases submitVote_inv hse with heq | ⟨hv, p, hp, hcase⟩
    · rw [heq]
      exact hgs
    · rcases hcase with heq | ⟨res, heq⟩
      · rw [heq]
        intro hst
        exact hgs hst
      · rw [processVotes_post heq]
        intro hst
        have hst' : GameStatus.finished = GameStatus.inProgress := hst
        exact absurd hst' (by decide)
  | tick _ now ev hse =>
    rcases checkTimer_inv hse with heq | ⟨hipr, _, _, _, _, _⟩ | ⟨hv, res, heq⟩
    · rw [heq]
      exact hgs
    · exact absurd hipr hgs
    · rw [processVotes_post heq]
      intro hst
      have hst' : GameStatus.finished = GameStatus.inProgress := hst
      exact absurd hst' (by decide)

/-! ### Public-snapshot noninterference vocabulary -/

/-- Two participant records agree on everything `to_public_dict` and the
snapshot can observe: id, name and both flags (role and secret word are
free). -/
def SamePublic (p q : Player) : Prop :=
  p.id = q.id ∧ p.name = q.name ∧ p.has_given_clue = q.has_given_clue ∧
    p.has_voted = q.has_voted

/-- Two match states that differ only in participants' roles, secret words,
the secret word pair, or the impostor id: every other field agrees, and the
participant maps are pointwise related by key and `SamePublic`. -/
def DifferOnlyInSecrets (g1 g2 : Game) : Prop :=
  g1.game_id = g2.game_id ∧
  List.Forall₂ (fun a b => a.1 = b.1 ∧ SamePublic a.2 b.2) g1.players g2.players ∧
  g1.host_id = g2.host_id ∧
  g1.words = g2.words ∧
  g1.config = g2.config ∧
  g1.status = g2.status ∧
  g1.current_round = g2.current_round ∧
  g1.current_turn_index = g2.current_turn_index ∧
  g1.players_turn_order = g2.players_turn_order ∧
  g1.clues = g2.clues ∧
  g1.votes = g2.votes ∧
  g1.timer_start_time = g2.timer_start_time ∧
  g1.timer_duration = g2.timer_duration ∧
  g1.timer_paused = g2.timer_paused ∧
  g1.results = g2.results

theorem alGet_samePublic {l1 l2 : List (String × Player)} (k : String)
    (h : List.Forall₂ (fun a b => a.1 = b.1 ∧ SamePublic a.2 b.2) l1 l2) :
    (alGet l1 k = none ∧ alGet l2 k = none) ∨
    (∃ p q, alGet l1 k = some p ∧ alGet l2 k = some q ∧ SamePublic p q) := by
  induction h with
  | nil => exact Or.inl ⟨rfl, rfl⟩
  | cons hab htail ih =>
    rename_i a b l1' l2'
    rw [alGet_cons, alGet_cons]
    by_cases hk : a.1 = k
    · rw [if_pos hk, if_pos (hab.1 ▸ hk)]
      exact Or.inr ⟨a.2, b.2, rfl, rfl, hab.2⟩
    · rw [if_neg hk, if_neg (fun hc => hk (hab.1.symm ▸ hc))]
      exact ih

theorem map_public_forall₂ {l1 l2 : List (String × Player)}
    (h : List.Forall₂ (fun a b => a.1 = b.1 ∧ SamePublic a.2 b.2) l1 l2) :
    l1.map (fun kp => toPublicDict kp.2) = l2.map (fun kp => toPublicDict kp.2) := by
  induction h with
  | nil => rfl
  | cons hab htail ih =>
    rename_i a b l1' l2'
    simp only [List.map_cons]
    rw [ih]
    congr 1
    rw [toPublicDict, toPublicDict, hab.2.1, hab.2.2.1]

/-! ### Concrete matches used by witnesses and counterexamples -/

def demoWordPair : WordPair := { inocente := "Banana", impostor := "Maçã" }

def demoConfig : GameConfig := { clue_time := 60, vote_time := 90, rounds_per_player := 1 }

def demoVoteP3 : Player := { id := "p3", name := "P3" }

/-- A 3-player match in Voting with all votes cast (reachable by: create,
two joins, start with order [p1, p2, p3] and impostor p3, three clues,
three votes — the last vote is modelled below as the state just before
resolution). -/
def demoVoteGame : Game :=
  { game_id := "g", host_id := "p1", words := [demoWordPair], config := demoConfig
    players := [("p1", { id := "p1", name := "P1" }),
                ("p2", { id := "p2", name := "P2" }),
                ("p3", demoVoteP3)]
    status := .voting, impostor_id := some "p3", word_pair := some demoWordPair
    current_round := 2, current_turn_index := 0
    players_turn_order := ["p1", "p2", "p3"]
    votes := [("p1", "p3"), ("p2", "p3"), ("p3", "p2")]
    timer_start_time := some 13, timer_duration := 90 }

/-- The public snapshot of `demoVoteGame` taken at time 100 (the vote
timer, armed at 13 for 90, has 3 seconds left). -/
def demoSnapshot : PublicState :=
  { id := "g", status := .voting
    players := [{ id := "p1", name := "P1" }, { id := "p2", name := "P2" },
                { id := "p3", name := "P3" }]
    player_count := 3, min_players := 3
    clue_time := 60, vote_time := 90, rounds_per_player := 1
    clues := [], current_round := 2
    current_turn := none, current_player_id := none
    timer := 3, total_players_to_vote := 3, votes_count := 3, results := none }

/-- A 3-player match still in the lobby. -/
def demoLobby : Game :=
  (addPlayer (addPlayer (mkGame "g" "p1" "P1" [demoWordPair] demoConfig)
    "p2" "P2").2 "p3" "P3").2

/-- The lobby match just after a successful start with shuffle outcome
[p1, p2, p3] and impostor p3; it is p1's turn. -/
def demoStarted : Game :=
  (((startGame demoLobby demoWordPair ["p1", "p2", "p3"] "p3" 10).map (·.2)).getD demoLobby)

/-- p1's record right after the start above. -/
def demoP1Started : Player :=
  { id := "p1", name := "P1", role := some "INOCENTE", word := some "Banana"
    has_given_clue := false, has_voted := false }

/-- `demoStarted` after p1's accepted clue "VERDE"; it is p2's turn and
p1's has-given-clue flag is set. -/
def demoAfterClue : Game :=
  (((submitClue demoStarted "p1" "VERDE" 11).map (·.2)).getD demoLobby)

/-- `demoAfterClue` after p2's accepted clue "AZUL"; it is p3's turn. -/
def demoAfterClue2 : Game :=
  (((submitClue demoAfterClue "p2" "AZUL" 12).map (fun x => x.2)).getD demoLobby)

/-- `demoAfterClue2` after p3's accepted clue "ROXO": the clue log is
full and the match moved to Voting with no votes yet. -/
def demoVoting : Game :=
  (((submitClue demoAfterClue2 "p3" "ROXO" 13).map (fun x => x.2)).getD demoLobby)

/-- The fresh match the demo chain grows from. -/
def demoInitial : Game := mkGame "g" "p1" "P1" [demoWordPair] demoConfig

theorem reach_demoStarted : Reach demoInitial demoStarted := by
  have s1 : Step demoInitial (addPlayer demoInitial "p2" "P2").2 :=
    Step.add demoInitial "p2" "P2"
  have s2 : Step (addPlayer demoInitial "p2" "P2").2 demoLobby :=
    Step.add (addPlayer demoInitial "p2" "P2").2 "p3" "P3"
  have s3 : Step demoLobby demoStarted :=
    Step.start demoLobby demoStarted demoWordPair ["p1", "p2", "p3"] "p3" 10
      (.success [("p1", { word := "Banana", role := "INOCENTE" }),
                 ("p2", { word := "Banana", role := "INOCENTE" }),
                 ("p3", { word := "Maçã", role := "IMPOSTOR" })])
      (by decide) (by decide) (by decide) (by decide)
  exact Reach.tail (Reach.tail (Reach.tail (Reach.refl demoInitial) s1) s2) s3

theorem reach_demoVoting : Reach demoInitial demoVoting := by
  have s4 : Step demoStarted demoAfterClue :=
    Step.clue demoStarted demoAfterClue "p1" "VERDE" 11 .success (by decide)
  have s5 : Step demoAfterClue demoAfterClue2 :=
    Step.clue demoAfterClue demoAfterClue2 "p2" "AZUL" 12 .success (by decide)
  have s6 : Step demoAfterClue2 demoVoting :=
    Step.clue demoAfterClue2 demoVoting "p3" "ROXO" 13 .success (by decide)
  exact Reach.tail (Reach.tail (Reach.tail reach_demoStarted s4) s5) s6

/-- A 3-player match in Voting in which two participants share the
name "X" (`add_player` never checks names, so this is reachable). -/
def dupNameGame : Game :=
  { game_id := "g", host_id := "p1", words := [demoWordPair], config := demoConfig
    players := [("p1", { id := "p1", name := "X" }),
                ("p2", { id := "p2", name := "X" }),
                ("p3", { id := "p3", name := "C" })]
    status := .voting, impostor_id := some "p3", word_pair := some demoWordPair
    current_round := 2, current_turn_index := 0
    players_turn_order := ["p1", "p2", "p3"]
    votes := [("p1", "p2"), ("p2", "p1"), ("p3", "p1")]
    timer_start_time := some 13, timer_duration := 90 }

/-! ### Claim C1 -/

/-- C1: whenever vote resolution (`process_votes`, triggered by the final
`submit_vote` or by vote-timer expiry in Voting) runs on a match whose
impostor and vote targets are still participants, every participant without
a recorded vote is first assigned the abstention sentinel; then, if there
are zero non-abstaining votes the winner is the Impostor side; if two or
more targets are tied at the highest non-abstaining count the winner is the
Impostor side; otherwise the unique target with the highest count is
eliminated and the winner is the Innocents side iff that target is the
impostor; in all cases status becomes Finished. -/
theorem c1_vote_resolution (g : Game) (imp : String) (ip : Player) (wp : WordPair)
    (himp : g.impostor_id = some imp) (hip : alGet g.players imp = some ip)
    (hwp : g.word_pair = some wp)
    (htgt : ∀ t ∈ g.votes.map (·.2), t = ABSTAIN ∨ (alGet g.players t).isSome = true) :
    ∃ res g', processVotes g = some (res, g') ∧
      g'.status = .finished ∧
      g'.results = some res ∧
      g'.votes = fillVotes g.players g.votes ∧
      (∀ k, k ∈ alKeys g.players → alGet g.votes k = none →
        alGet g'.votes k = some ABSTAIN) ∧
      (nonAbstVotes g = [] → res.winner = "IMPOSTOR") ∧
      (∀ t₁ t₂, t₁ ≠ t₂ → IsMaxTarget g t₁ → IsMaxTarget g t₂ →
        res.winner = "IMPOSTOR") ∧
      (∀ t, IsMaxTarget g t → (∀ u, IsMaxTarget g u → u = t) →
        res.winner = if g.impostor_id = some t then "INOCENTES" else "IMPOSTOR") := by
  obtain ⟨res, vt, heq, hvt, htally, hname, hc1, hc2, hc3⟩ :=
    processVotes_spec g imp ip wp himp hip hwp htgt
  refine ⟨res, _, heq, rfl, rfl, rfl, ?_, hc1, hc2, ?_⟩
  · intro k hk hnone
    exact alGet_fillVotes_abstain g.players g.votes k hk hnone
  · intro t hmax huniq
    have h3 := hc3 t hmax huniq
    by_cases ht : t = imp
    · rw [h3, if_pos ht, if_pos (by rw [himp, ht])]
    · rw [h3, if_neg ht, if_neg ?_]
      rw [himp]
      intro hcontra
      exact ht (Option.some.injEq _ _ ▸ hcontra).symm

/-- Witness for C1 at a concrete match: three votes p1→p3, p2→p3, p3→p2
with impostor p3. -/
theorem c1_vote_resolution_witness :
    (demoVoteGame.impostor_id = some "p3" ∧
     alGet demoVoteGame.players "p3" = some demoVoteP3 ∧
     demoVoteGame.word_pair = some demoWordPair ∧
     (∀ t ∈ demoVoteGame.votes.map (·.2),
        t = ABSTAIN ∨ (alGet demoVoteGame.players t).isSome = true)) ∧
    (∃ res g', processVotes demoVoteGame = some (res, g') ∧
      g'.status = .finished ∧
      g'.results = some res ∧
      g'.votes = fillVotes demoVoteGame.players demoVoteGame.votes ∧
      (∀ k, k ∈ alKeys demoVoteGame.players → alGet demoVoteGame.votes k = none →
        alGet g'.votes k = some ABSTAIN) ∧
      (nonAbstVotes demoVoteGame = [] → res.winner = "IMPOSTOR") ∧
      (∀ t₁ t₂, t₁ ≠ t₂ → IsMaxTarget demoVoteGame t₁ → IsMaxTarget demoVoteGame t₂ →
        res.winner = "IMPOSTOR") ∧
      (∀ t, IsMaxTarget demoVoteGame t → (∀ u, IsMaxTarget demoVoteGame u → u = t) →
        res.winner = if demoVoteGame.impostor_id = some t then "INOCENTES" else "IMPOSTOR")) :=
  ⟨⟨rfl, rfl, rfl, by decide⟩,
    c1_vote_resolution demoVoteGame "p3" demoVoteP3 demoWordPair rfl rfl rfl (by decide)⟩

/-! ### Claim C2 -/

/-- C2: start() on a match with fewer than 3 participants or status not
Lobby returns an error result and changes no state; otherwise it sets
status to ClueRounds, fixes turnOrder as a permutation of the current
participant-id set, chooses one impostor whose id is in turnOrder, assigns
the impostor the impostor word and everyone else the innocent word, sets
the round to 1, arms the first clue timer, and returns a map from every
participant id to that participant's role and secret word.  The
permutation and choice hypotheses state what `random.shuffle` and
`random.choice` guarantee. -/
theorem c2_start_game (g : Game) (wp : WordPair) (order : List String)
    (imp : String) (now : Int) :
    ((g.players.length < 3 ∨ g.status ≠ .waitingForPlayers) →
      ∃ msg, startGame g wp order imp now = some (.error msg, g)) ∧
    (3 ≤ g.players.length → g.status = .waitingForPlayers →
      List.Perm order (alKeys g.players) → imp ∈ order → (alKeys g.players).Nodup →
      ∃ pm g', startGame g wp order imp now = some (.success pm, g') ∧
        g'.status = .inProgress ∧
        g'.players_turn_order = order ∧
        List.Perm g'.players_turn_order (alKeys g'.players) ∧
        g'.impostor_id = some imp ∧
        imp ∈ g'.players_turn_order ∧
        g'.word_pair = some wp ∧
        alKeys g'.players = alKeys g.players ∧
        (∀ k p, alGet g'.players k = some p →
          p.role = some (if k = imp then "IMPOSTOR" else "INOCENTE") ∧
          p.word = some (if k = imp then wp.impostor else wp.inocente)) ∧
        g'.current_round = 1 ∧
        g'.timer_duration = g.config.clue_time ∧
        g'.timer_start_time = some now ∧
        (∀ k, k ∈ alKeys g.players →
          alGet pm k = some { word := if k = imp then wp.impostor else wp.inocente
                              role := if k = imp then "IMPOSTOR" else "INOCENTE" })) := by
  constructor
  · intro hbad
    by_cases hlt : g.players.length < MIN_PLAYERS
    · exact ⟨_, by rw [startGame, if_pos hlt]⟩
    · have hne : g.status ≠ .waitingForPlayers := by
        rcases hbad with h3 | hs
        · exact absurd h3 hlt
        · exact hs
      exact ⟨_, by rw [startGame, if_neg hlt, if_pos hne]⟩
  · intro h3 hst hperm himpmem hnd
    have hlt : ¬ g.players.length < MIN_PLAYERS := by
      show ¬ g.players.length < 3
      omega
    have hordernd : order.Nodup := (hperm.nodup_iff).2 hnd
    have hcover : ∀ k ∈ order, k ∈ alKeys g.players := fun k hk => hperm.subset hk
    obtain ⟨players', priv, hassign, hkeys, hnotin, hin, hpriv⟩ :=
      assignRoles_spec wp imp order g.players hordernd hcover
    have hlenord : order.length = g.players.length := by
      have := hperm.length_eq
      rw [this, alKeys, List.length_map]
    obtain ⟨o1, orest, horder⟩ : ∃ o1 orest, order = o1 :: orest := by
      cases ho : order with
      | nil =>
        rw [ho] at hlenord
        simp at hlenord
        omega
      | cons o1 orest => exact ⟨o1, orest, rfl⟩
    have ho1mem : o1 ∈ order := by rw [horder]; exact List.mem_cons_self _ _
    obtain ⟨p1, hp1⟩ : ∃ p1, alGet g.players o1 = some p1 := by
      cases hg : alGet g.players o1 with
      | none => exact absurd ((alGet_eq_none_iff _ _).1 hg) (fun hc => hc (hcover o1 ho1mem))
      | some p1 => exact ⟨p1, rfl⟩
    have hget1 : alGet players' o1 = some (assignP p1 o1 imp wp) := hin o1 p1 ho1mem hp1
    have hpy : pyIndex order ((-1 : Int) + 1) = some o1 := by
      rw [horder]
      have he0 : ((-1 : Int) + 1) = 0 := by norm_num
      rw [he0, pyIndex]
      simp
    have hnotvote : ¬ ((order.length : Int) ≤ (-1 : Int) + 1) := by
      have : (3 : Int) ≤ (order.length : Int) := by
        rw [hlenord]
        exact_mod_cast h3
      omega
    have hhas1 : alHas players' o1 = true := by
      rw [alHas_iff_mem, hkeys]
      exact hcover o1 ho1mem
    have hnext := startNext_stay_eq
      { g with
        status := .inProgress
        word_pair := some wp
        players_turn_order := order
        impostor_id := some imp
        players := players'
        current_round := 1
        current_turn_index := -1 } now o1 (assignP p1 o1 imp wp)
      hnotvote hpy hget1
    have hstart : startGame g wp order imp now = some (.success priv,
        { g with
          status := .inProgress
          word_pair := some wp
          players_turn_order := order
          impostor_id := some imp
          players := alSet players' o1 { assignP p1 o1 imp wp with has_given_clue := false }
          current_round := 1
          current_turn_index := (-1 : Int) + 1
          timer_duration := g.config.clue_time
          timer_start_time := some now }) := by
      rw [startGame, if_neg hlt, if_neg (fun hne => hne hst)]
      simp only [hassign, hnext]
    have hKfin : alKeys (alSet players' o1
        { assignP p1 o1 imp wp with has_given_clue := false }) = alKeys g.players :=
      (alKeys_alSet_of_has _ hhas1).trans hkeys
    refine ⟨priv, _, hstart, rfl, rfl, ?_, rfl, himpmem, rfl, hKfin, ?_, rfl, rfl, rfl, ?_⟩
    · show List.Perm order _
      rw [hKfin]
      exact hperm
    · intro k p hp'
      by_cases hk1 : k = o1
      · subst hk1
        rw [alGet_alSet_self] at hp'
        have hpv : p = { assignP p1 k imp wp with has_given_clue := false } :=
          (Option.some.injEq _ _ ▸ hp').symm
        rw [hpv]
        exact ⟨assignP_role p1 k imp wp, assignP_word p1 k imp wp⟩
      · rw [alGet_alSet_ne _ _ _ _ hk1] at hp'
        have hkmem : k ∈ alKeys g.players := by
          rw [← hkeys]
          exact (alGet_isSome_iff players' k).1 (by rw [hp']; rfl)
        have hkord : k ∈ order := (hperm.mem_iff).2 hkmem
        obtain ⟨p0, hp0⟩ : ∃ p0, alGet g.players k = some p0 := by
          cases hg : alGet g.players k with
          | none => exact absurd ((alGet_eq_none_iff _ _).1 hg) (fun hc => hc hkmem)
          | some p0 => exact ⟨p0, rfl⟩
        have := hin k p0 hkord hp0
        rw [this] at hp'
        have hpv : p = assignP p0 k imp wp := (Option.some.injEq _ _ ▸ hp').symm
        rw [hpv]
        exact ⟨assignP_role p0 k imp wp, assignP_word p0 k imp wp⟩
    · intro k hkmem
      have hkord : k ∈ order := (hperm.mem_iff).2 hkmem
      rw [hpriv]
      exact alGet_map_keyfun _ order k hkord

/-- Witness for C2 at a concrete 3-player lobby with shuffle outcome
[p2, p1, p3] and impostor choice p3. -/
theorem c2_start_game_witness :
    (3 ≤ demoLobby.players.length ∧ demoLobby.status = .waitingForPlayers ∧
     List.Perm ["p2", "p1", "p3"] (alKeys demoLobby.players) ∧
     "p3" ∈ ["p2", "p1", "p3"] ∧ (alKeys demoLobby.players).Nodup) ∧
    (∃ pm g', startGame demoLobby demoWordPair ["p2", "p1", "p3"] "p3" 7 =
        some (.success pm, g') ∧
      g'.status = .inProgress ∧
      g'.players_turn_order = ["p2", "p1", "p3"] ∧
      List.Perm g'.players_turn_order (alKeys g'.players) ∧
      g'.impostor_id = some "p3" ∧
      "p3" ∈ g'.players_turn_order ∧
      g'.word_pair = some demoWordPair ∧
      alKeys g'.players = alKeys demoLobby.players ∧
      (∀ k p, alGet g'.players k = some p →
        p.role = some (if k = "p3" then "IMPOSTOR" else "INOCENTE") ∧
        p.word = some (if k = "p3" then demoWordPair.impostor else demoWordPair.inocente)) ∧
      g'.current_round = 1 ∧
      g'.timer_duration = demoLobby.config.clue_time ∧
      g'.timer_start_time = some 7 ∧
      (∀ k, k ∈ alKeys demoLobby.players →
        alGet pm k = some { word := if k = "p3" then demoWordPair.impostor else demoWordPair.inocente
                            role := if k = "p3" then "IMPOSTOR" else "INOCENTE" })) :=
  ⟨⟨by decide, rfl, by decide, by decide, by decide⟩,
   (c2_start_game demoLobby demoWordPair ["p2", "p1", "p3"] "p3" 7).2
     (by decide) rfl (by decide) (by decide) (by decide)⟩

/-! ### Claim C5 -/

/-- Counterexample to C5 as stated: in `demoAfterClue` (ClueRounds, p2's
turn, p1 already clued this round) p1 submits the valid one-word clue
"AZUL" out of turn; the call is rejected with no state change, but the
submitter's has-given-clue flag is true, not false. -/
theorem c5_counterexample :
    submitClue demoAfterClue "p1" "AZUL" 12 =
      some (.error "Não é sua vez.", demoAfterClue) ∧
    (alGet demoAfterClue.players "p1").map (·.has_given_clue) = some true := by
  constructor
  · decide
  · decide

/-- C5 (amended): in ClueRounds, a clue text that is empty after trimming,
has more than one whitespace-delimited token, or matches either word of
the active pair (case-folded) is rejected; every rejection leaves the
state — in particular the submitter's has-given-clue flag — unchanged
(so the flag stays false whenever the submitter is the current seat,
whose flag was reset at turn start); every accepted submission appends
exactly one entry {participantName, normalizedClue} to the clue log and
triggers exactly one advance-turn. -/
theorem c5_submit_clue (g : Game) (pid text : String) (now : Int) (cur : String)
    (p : Player)
    (hst : g.status = .inProgress)
    (hcur : pyIndex g.players_turn_order g.current_turn_index = some cur)
    (hp : alGet g.players pid = some p) :
    ((pyStrip (pyUpper text) = "" ∨ 1 < (pySplit (pyStrip (pyUpper text))).length ∨
        wordMatch g.word_pair (pyStrip (pyUpper text)) = true) →
      ∃ msg, submitClue g pid text now = some (.error msg, g)) ∧
    (∀ msg g', submitClue g pid text now = some (.error msg, g') → g' = g) ∧
    (∀ g', submitClue g pid text now = some (.success, g') →
      pid = cur ∧ p.has_given_clue = false ∧
      startNextPlayerTurn { g with
        clues := g.clues ++ [{ player_name := p.name, clue := pyStrip (pyUpper text) }]
        players := alSet g.players pid { p with has_given_clue := true } } now = some g' ∧
      g'.clues = g.clues ++ [{ player_name := p.name, clue := pyStrip (pyUpper text) }]) := by
  refine ⟨?_, ?_, ?_⟩
  · intro hbad
    by_cases hpc : pid = cur
    · subst hpc
      cases hgiven : p.has_given_clue with
      | true => exact ⟨_, submitClue_already g pid text now p hst hcur hp hgiven⟩
      | false =>
        by_cases hbad1 : pyStrip (pyUpper text) = "" ∨
            1 < (pySplit (pyStrip (pyUpper text))).length
        · exact ⟨_, submitClue_badword g pid text now p hst hcur hp hgiven hbad1⟩
        · have hm : wordMatch g.word_pair (pyStrip (pyUpper text)) = true := by
            rcases hbad with h1 | h2 | h3
            · exact absurd (Or.inl h1) hbad1
            · exact absurd (Or.inr h2) hbad1
            · exact h3
          exact ⟨_, submitClue_secret g pid text now p hst hcur hp hgiven hbad1 hm⟩
    · exact ⟨_, submitClue_not_turn g pid text now cur hst hcur hpc⟩
  · intro msg g' h
    exact submitClue_error_state g pid text now msg g' h
  · intro g' h
    have hpc : pid = cur := by
      by_contra hpc
      rw [submitClue_not_turn g pid text now cur hst hcur hpc] at h
      injection h with ho
      injection ho with hr hg
      cases hr
    subst hpc
    have hgiven : p.has_given_clue = false := by
      cases hgiven : p.has_given_clue with
      | false => rfl
      | true =>
        rw [submitClue_already g pid text now p hst hcur hp hgiven] at h
        injection h with ho
        injection ho with hr hg
        cases hr
    have hgood : ¬ (pyStrip (pyUpper text) = "" ∨
        1 < (pySplit (pyStrip (pyUpper text))).length) := by
      intro hbad1
      rw [submitClue_badword g pid text now p hst hcur hp hgiven hbad1] at h
      injection h with ho
      injection ho with hr hg
      cases hr
    have hnm : wordMatch g.word_pair (pyStrip (pyUpper text)) = false := by
      cases hm : wordMatch g.word_pair (pyStrip (pyUpper text)) with
      | false => rfl
      | true =>
        rw [submitClue_secret g pid text now p hst hcur hp hgiven hgood hm] at h
        injection h with ho
        injection ho with hr hg
        cases hr
    rw [submitClue_success_eq g pid text now p hst hcur hp hgiven hgood hnm] at h
    have hsn := clue_map_success _ _ h
    refine ⟨rfl, hgiven, hsn, ?_⟩
    have := (startNext_fields hsn).1
    rw [this]

/-- Witness for the amended C5: p1's turn in the started demo match; the
two-word text "duas palavras" is rejected with the state unchanged. -/
theorem c5_submit_clue_witness :
    (demoStarted.status = .inProgress ∧
     pyIndex demoStarted.players_turn_order demoStarted.current_turn_index = some "p1" ∧
     alGet demoStarted.players "p1" = some demoP1Started ∧
     (pyStrip (pyUpper "duas palavras") = "" ∨
       1 < (pySplit (pyStrip (pyUpper "duas palavras"))).length ∨
       wordMatch demoStarted.word_pair (pyStrip (pyUpper "duas palavras")) = true)) ∧
    (∃ msg, submitClue demoStarted "p1" "duas palavras" 11 = some (.error msg, demoStarted)) :=
  ⟨⟨by decide, by decide, by decide, by decide⟩,
   (c5_submit_clue demoStarted "p1" "duas palavras" 11 "p1" demoP1Started
     (by decide) (by decide) (by decide)).1 (by decide)⟩

/-! ### Claim C4 -/

/-- C4: check_timer has no effect and returns nothing while the deadline is
unset (including Python's falsy zero timestamp), paused, or not yet
reached; when it fires during ClueRounds with a current seat that has not
clued it appends the placeholder clue, marks the seat as having clued, and
performs advance-turn, reporting a turn-skipped event; when it fires
during Voting it runs vote resolution; and (for positive configured
durations) a second call at the same clock value after a firing has no
effect, because the firing either re-armed the timer at `now` or paused
it. -/
theorem c4_check_timer (g : Game) (now : Int) :
    (¬ timerFired g now → checkTimer g now = some (none, g)) ∧
    (∀ pid p, timerFired g now → g.status = .inProgress →
      pyIndex g.players_turn_order g.current_turn_index = some pid →
      alGet g.players pid = some p → p.has_given_clue = false →
      checkTimer g now = (startNextPlayerTurn { g with
        clues := g.clues ++
          [{ player_name := p.name, clue := "(Pista Perdida - Tempo Esgotado)" }]
        players := alSet g.players pid { p with has_given_clue := true } } now).map
        (fun g2 => (some .turnSkipped, g2))) ∧
    (timerFired g now → g.status = .voting →
      checkTimer g now = (processVotes g).map
        (fun rg => (some (.gameOver rg.1), rg.2))) ∧
    (0 < g.config.clue_time → 0 < g.config.vote_time →
      ∀ ev g', checkTimer g now = some (some ev, g') →
        checkTimer g' now = some (none, g')) := by
  refine ⟨checkTimer_noop g now, ?_, ?_, ?_⟩
  · rintro pid p ⟨st, hst, hs0, hpause, hdl⟩ hstatus hpy hp hnc
    exact checkTimer_fire_clue g now st pid p hst hs0 hpause hdl hstatus hpy hp hnc
  · rintro ⟨st, hst, hs0, hpause, hdl⟩ hstatus
    exact checkTimer_fire_vote g now st hst hs0 hpause hdl hstatus
  · intro hclue hvote ev g' h
    rw [checkTimer] at h
    split at h
    · injection h with ho
      injection ho with hr hg
      exact Option.noConfusion hr
    · rename_i st heqst
      split_ifs at h with h1 h2 h3 h4
      · -- fired in ClueRounds
        split at h
        · exact Option.noConfusion h
        · split at h
          · exact Option.noConfusion h
          · rename_i pid hpy p hp
            have hsn := skip_map_inv _ _ _ h
            by_cases hc : p.has_given_clue = true
            · rw [if_pos hc] at hsn
              have hf := startNext_fields hsn
              apply checkTimer_noop
              rintro ⟨st', hst', hs0', hpause', hdl'⟩
              rw [hf.2.2.1] at hst'
              have hstnow : st' = now := (Option.some.injEq _ _ ▸ hst').symm
              rw [hstnow] at hdl'
              rcases hf.2.2.2.2.2.2.2.2 with ⟨_, hdur⟩ | ⟨_, hdur⟩
              · have hdur' : g'.timer_duration = g.config.clue_time := hdur
                rw [hdur'] at hdl'
                omega
              · have hdur' : g'.timer_duration = g.config.vote_time := hdur
                rw [hdur'] at hdl'
                omega
            · rw [if_neg hc] at hsn
              have hf := startNext_fields hsn
              apply checkTimer_noop
              rintro ⟨st', hst', hs0', hpause', hdl'⟩
              rw [hf.2.2.1] at hst'
              have hstnow : st' = now := (Option.some.injEq _ _ ▸ hst').symm
              rw [hstnow] at hdl'
              rcases hf.2.2.2.2.2.2.2.2 with ⟨_, hdur⟩ | ⟨_, hdur⟩
              · have hdur' : g'.timer_duration = g.config.clue_time := hdur
                rw [hdur'] at hdl'
                omega
              · have hdur' : g'.timer_duration = g.config.vote_time := hdur
                rw [hdur'] at hdl'
                omega
      · -- fired in Voting
        cases hpv : processVotes g with
        | none =>
          rw [hpv] at h
          exact Option.noConfusion h
        | some rg =>
          obtain ⟨res, g2⟩ := rg
          rw [hpv] at h
          injection h with ho
          injection ho with hr hg
          have hpost := processVotes_post hpv
          apply checkTimer_noop
          rintro ⟨st', hst', hs0', hpause', hdl'⟩
          rw [← hg, hpost] at hpause'
          exact Bool.noConfusion hpause'
      · injection h with ho
        injection ho with hr hg
        exact Option.noConfusion hr
      · injection h with ho
        injection ho with hr hg
        exact Option.noConfusion hr
      · injection h with ho
        injection ho with hr hg
        exact Option.noConfusion hr

/-- Witness for C4: the vote timer of the demo Voting match (armed at 13
for 90 seconds) fires at time 200 and runs vote resolution. -/
theorem c4_check_timer_witness :
    timerFired demoVoteGame 200 ∧ demoVoteGame.status = .voting ∧
    checkTimer demoVoteGame 200 = (processVotes demoVoteGame).map
      (fun rg => (some (.gameOver rg.1), rg.2)) :=
  ⟨⟨13, rfl, by decide, rfl, by decide⟩, rfl,
   (c4_check_timer demoVoteGame 200).2.2.1 ⟨13, rfl, by decide, rfl, by decide⟩ rfl⟩

/-! ### Claim C3 -/

/-- C3: from any fresh match with at least one configured clue round, on
every reachable state the clue log never exceeds roundsPerParticipant ×
|turnOrder| entries, is strictly below that bound during ClueRounds, and
holds exactly that many entries (real clues plus timeout placeholders) in
Voting; every transition that lands in Voting does so with a full clue log
and arms the vote timer; and from Voting or Finished no transition
re-enters ClueRounds. -/
theorem c3_clue_rounds (g0 g : Game) (h0 : Initial g0)
    (hR : 1 ≤ g0.config.rounds_per_player) (hr : Reach g0 g) :
    ((g.clues.length : Int) ≤
      g.config.rounds_per_player * (g.players_turn_order.length : Int)) ∧
    (g.status = .inProgress →
      (g.clues.length : Int) <
        g.config.rounds_per_player * (g.players_turn_order.length : Int)) ∧
    (∀ g', Step g g' → g'.status = .voting →
      (g'.clues.length : Int) =
        g'.config.rounds_per_player * (g'.players_turn_order.length : Int) ∧
      g'.timer_duration = g'.config.vote_time ∧ g'.timer_paused = false ∧
      ∃ t, g'.timer_start_time = some t) ∧
    (g.status = .voting →
      (g.clues.length : Int) =
        g.config.rounds_per_player * (g.players_turn_order.length : Int) ∧
      g.timer_duration = g.config.vote_time ∧ g.timer_paused = false ∧
      ∃ t, g.timer_start_time = some t) ∧
    (∀ g', Step g g' → g.status = .voting ∨ g.status = .finished →
      g'.status ≠ .inProgress) := by
  obtain ⟨hR', hwait, hprog, hvote, hfin⟩ := invC3_reach hr (invC3_initial h0 hR)
  refine ⟨?_, ?_, ?_, hvote, fun g' hs hvf => step_no_reenter hs hvf⟩
  · cases hst : g.status with
    | waitingForPlayers =>
      rw [(hwait hst).1]
      have hN : (0 : Int) ≤ (g.players_turn_order.length : Int) := by positivity
      have hm := mul_nonneg (le_trans zero_le_one hR') hN
      simpa using hm
    | inProgress =>
      obtain ⟨h1, h2, h3, h4, h5, _, _⟩ := hprog hst
      have hmul : (g.current_round - 1) * (g.players_turn_order.length : Int) ≤
          (g.config.rounds_per_player - 1) * (g.players_turn_order.length : Int) :=
        mul_le_mul_of_nonneg_right (by omega) (by positivity)
      have hid : (g.config.rounds_per_player - 1) *
            (g.players_turn_order.length : Int) +
            (g.players_turn_order.length : Int) =
          g.config.rounds_per_player * (g.players_turn_order.length : Int) := by
        ring
      linarith [h5, hmul, h4, hid]
    | voting => exact le_of_eq (hvote hst).1
    | finished => exact le_of_eq (hfin hst)
  · intro hst
    obtain ⟨h1, h2, h3, h4, h5, _, _⟩ := hprog hst
    have hmul : (g.current_round - 1) * (g.players_turn_order.length : Int) ≤
        (g.config.rounds_per_player - 1) * (g.players_turn_order.length : Int) :=
      mul_le_mul_of_nonneg_right (by omega) (by positivity)
    have hid : (g.config.rounds_per_player - 1) *
          (g.players_turn_order.length : Int) +
          (g.players_turn_order.length : Int) =
        g.config.rounds_per_player * (g.players_turn_order.length : Int) := by
      ring
    linarith [h5, hmul, h4, hid]
  · intro g' hs hv'
    exact (invC3_step ⟨hR', hwait, hprog, hvote, hfin⟩ hs).2.2.2.1 hv'

/-- Witness for C3: along the demo chain (create, two joins, start, three
clues) the started state has 0 < 1×3 clue entries, and the state after the
third clue is in Voting with exactly 1×3 = 3 entries. -/
theorem c3_clue_rounds_witness :
    Initial demoInitial ∧
    demoStarted.status = GameStatus.inProgress ∧
    (demoStarted.clues.length : Int) <
      demoStarted.config.rounds_per_player *
        (demoStarted.players_turn_order.length : Int) ∧
    demoVoting.status = GameStatus.voting ∧
    (demoVoting.clues.length : Int) =
      demoVoting.config.rounds_per_player *
        (demoVoting.players_turn_order.length : Int) := by
  have h0 : Initial demoInitial :=
    ⟨"g", "p1", "P1", [demoWordPair], demoConfig, rfl⟩
  refine ⟨h0, by decide, ?_, by decide, ?_⟩
  · exact (c3_clue_rounds demoInitial demoStarted h0 (by decide)
      reach_demoStarted).2.1 (by decide)
  · exact ((c3_clue_rounds demoInitial demoVoting h0 (by decide)
      reach_demoVoting).2.2.2.1 (by decide)).1

/-! ### Claim C10 -/

/-- C10: on every reachable Voting state whose impostor id and recorded
vote targets are all keys of the current participants mapping, vote
resolution completes without fault: the impostor lookup, the name-keyed
tally, and `process_votes` itself are all defined. -/
theorem c10_vote_resolution (g0 g : Game) (h0 : Initial g0) (hr : Reach g0 g)
    (hst : g.status = .voting)
    (himp : ∀ imp, g.impostor_id = some imp → imp ∈ alKeys g.players)
    (htgt : ∀ t ∈ g.votes.map (fun kv => kv.2), t ∈ alKeys g.players) :
    (impostorLookup g.players g.impostor_id).isSome = true ∧
    (tallyNames g.players (mkCounter (voteVals g)) []).isSome = true ∧
    ∃ res g', processVotes g = some (res, g') := by
  have h2 := inv2_reach hr (inv2_initial h0)
  have hne : g.status ≠ .waitingForPlayers := by rw [hst]; decide
  obtain ⟨hwpS, hioS⟩ := h2 hne
  obtain ⟨wp, hwp⟩ := Option.isSome_iff_exists.mp hwpS
  obtain ⟨imp, himpEq⟩ := Option.isSome_iff_exists.mp hioS
  have hipmem := himp imp himpEq
  obtain ⟨ip, hip⟩ :=
    Option.isSome_iff_exists.mp ((alGet_isSome_iff g.players imp).2 hipmem)
  have htgt' : ∀ t ∈ g.votes.map (fun kv => kv.2),
      t = ABSTAIN ∨ (alGet g.players t).isSome = true :=
    fun t ht => Or.inr ((alGet_isSome_iff g.players t).2 (htgt t ht))
  obtain ⟨res, vt, heq, hvt, _, _, _, _⟩ :=
    processVotes_spec g imp ip wp himpEq hip hwp htgt'
  refine ⟨?_, ?_, res, _, heq⟩
  · rw [himpEq]
    simp [impostorLookup, hip]
  · rw [hvt]
    rfl

/-- Witness for C10: the demo Voting state (reached by create, two joins,
start and three clues) resolves its votes without fault. -/
theorem c10_vote_resolution_witness :
    demoVoting.status = GameStatus.voting ∧
    ∃ res g', processVotes demoVoting = some (res, g') := by
  have h0 : Initial demoInitial :=
    ⟨"g", "p1", "P1", [demoWordPair], demoConfig, rfl⟩
  have himp : ∀ imp, demoVoting.impostor_id = some imp →
      imp ∈ alKeys demoVoting.players := by
    intro imp h
    have h' : (some "p3" : Option String) = some imp := h
    injection h' with h2
    rw [← h2]
    decide
  have htgt : ∀ t ∈ demoVoting.votes.map (fun kv => kv.2),
      t ∈ alKeys demoVoting.players := by
    decide
  exact ⟨by decide, (c10_vote_resolution demoInitial demoVoting h0
    reach_demoVoting (by decide) himp htgt).2.2⟩

/-! ### Claim C9 -/

/-- C9: for every match state and requester, the snapshot's participant
list holds only each participant's id and name (never role or secret
word); the remaining-timer field equals the deadline (arm time plus
duration) minus the current time clamped to zero, and is zero when the
timer is paused or unset (including Python's falsy zero timestamp); the
results field is empty unless the status is Finished; the snapshot is
identical for every requester; and two match states that differ only in
participants' roles, secret words, the word pair, or the impostor id
produce equal snapshots while the status is not Finished. -/
theorem c9_public_state (g : Game) (r : Option String) (now : Int) :
    (∀ ps, getPublicState g r now = some ps →
      ps.players = g.players.map (fun kp => { id := kp.2.id, name := kp.2.name }) ∧
      (∀ st, g.timer_start_time = some st → st ≠ 0 → g.timer_paused = false →
        ps.timer = max 0 ((st + g.timer_duration) - now)) ∧
      ((g.timer_paused = true ∨ g.timer_start_time = none ∨
          g.timer_start_time = some 0) → ps.timer = 0) ∧
      (g.status ≠ .finished → ps.results = none)) ∧
    (∀ r2, getPublicState g r now = getPublicState g r2 now) ∧
    (∀ g2, DifferOnlyInSecrets g g2 → g.status ≠ .finished →
      getPublicState g r now = getPublicState g2 r now) := by
  refine ⟨?_, fun r2 => rfl, ?_⟩
  · intro ps h
    simp only [getPublicState] at h
    split at h
    · exact Option.noConfusion h
    · injection h with h
      subst h
      refine ⟨rfl, ?_, ?_, ?_⟩
      · intro st hst hs0 hpause
        simp only [hst]
        rw [if_pos (show st ≠ 0 ∧ g.timer_paused = false from ⟨hs0, hpause⟩)]
        congr 1
        ring
      · rintro (hp | hn | h0)
        · cases hts : g.timer_start_time with
          | none => simp only [hts]
          | some st =>
            simp only [hts]
            rw [if_neg (show ¬ (st ≠ 0 ∧ g.timer_paused = false) from
              fun hc => by rw [hp] at hc; exact Bool.noConfusion hc.2)]
        · simp only [hn]
        · simp only [h0]
          rw [if_neg (show ¬ ((0 : Int) ≠ 0 ∧ g.timer_paused = false) from
            fun hc => hc.1 rfl)]
      · intro hnf
        simp only [if_neg hnf]
  · intro g2 hd hnf
    obtain ⟨hgid, hpl, hhost, hwords, hcfg, hstat, hround, hidx, horder,
      hclues, hvotes, hts, htd, htp, hres⟩ := hd
    simp only [getPublicState]
    rw [← hstat, ← horder, ← hidx, ← hgid, ← hcfg, ← hclues, ← hround,
      ← hvotes, ← hts, ← htd, ← htp, ← hres, ← List.Forall₂.length_eq hpl,
      ← map_public_forall₂ hpl]
    by_cases hcond : (g.status = GameStatus.inProgress ∧
        g.players_turn_order ≠ [] ∧ 0 ≤ g.current_turn_index)
    · rw [if_pos hcond, if_pos hcond]
      cases hpy : pyIndex g.players_turn_order g.current_turn_index with
      | none => rfl
      | some pid =>
        rcases alGet_samePublic pid hpl with ⟨h1, h2⟩ | ⟨p, q, h1, h2, hsp⟩
        · simp only [h1, h2]
        · simp only [h1, h2, hsp.2.1]
    · rw [if_neg hcond, if_neg hcond]

/-- Witness for C9: in the demo Voting match observed at time 100 the
snapshot is requester-independent, unchanged when the impostor id is
erased, has empty results, and shows 3 seconds left on the vote timer. -/
theorem c9_public_state_witness :
    getPublicState demoVoteGame (some "p1") 100 =
      getPublicState demoVoteGame (some "p2") 100 ∧
    getPublicState demoVoteGame (some "p1") 100 =
      getPublicState { demoVoteGame with impostor_id := none } (some "p1") 100 ∧
    getPublicState demoVoteGame (some "p1") 100 = some demoSnapshot ∧
    demoSnapshot.results = none ∧
    demoSnapshot.timer = max 0 ((13 + demoVoteGame.timer_duration) - 100) := by
  have hps : getPublicState demoVoteGame (some "p1") 100 = some demoSnapshot := by
    decide
  exact ⟨(c9_public_state demoVoteGame (some "p1") 100).2.1 (some "p2"),
    (c9_public_state demoVoteGame (some "p1") 100).2.2
      { demoVoteGame with impostor_id := none }
      ⟨rfl, List.forall₂_same.2 (fun x _ => ⟨rfl, rfl, rfl, rfl, rfl⟩),
        rfl, rfl, rfl, rfl, rfl, rfl, rfl, rfl, rfl, rfl, rfl, rfl, rfl⟩
      (by decide),
    hps,
    ((c9_public_state demoVoteGame (some "p1") 100).1 demoSnapshot hps).2.2.2
      (by decide),
    ((c9_public_state demoVoteGame (some "p1") 100).1 demoSnapshot hps).2.1
      13 rfl (by decide) rfl⟩

/-! ### Claim C6 -/

/-- C6: every denied mutating operation — a join refused, a leave refused,
a start returning an error, a clue submission returning an error, a vote
returning an error — leaves the match state exactly as it was. -/
theorem c6_denied_unchanged (g : Game) :
    (∀ pid name g', addPlayer g pid name = (false, g') → g' = g) ∧
    (∀ pid g', removePlayer g pid = (false, g') → g' = g) ∧
    (∀ wp order imp now msg g',
      startGame g wp order imp now = some (.error msg, g') → g' = g) ∧
    (∀ pid text now msg g',
      submitClue g pid text now = some (.error msg, g') → g' = g) ∧
    (∀ voter target msg g',
      submitVote g voter target = some (.error msg, g') → g' = g) := by
  refine ⟨?_, ?_, ?_, ?_, ?_⟩
  · intro pid name g' h
    rw [addPlayer] at h
    split_ifs at h
    all_goals
      first
      | rfl
      | (injection h with hb hg
         first
         | exact hg.symm
         | cases hb)
  · intro pid g' h
    rw [removePlayer] at h
    split_ifs at h
    all_goals
      first
      | rfl
      | (injection h with hb hg
         first
         | exact hg.symm
         | cases hb)
  · intro wp order imp now msg g' h
    rw [startGame] at h
    split_ifs at h
    all_goals try (injection h with ho; injection ho with hr hg; exact hg.symm)
    all_goals split at h
    all_goals try exact Option.noConfusion h
    all_goals split at h
    all_goals try exact Option.noConfusion h
    all_goals
      injection h with ho
      injection ho with hr hg
      cases hr
  · intro pid text now msg g' h
    exact submitClue_error_state g pid text now msg g' h
  · intro voter target msg g' h
    rw [submitVote] at h
    split_ifs at h
    all_goals try (injection h with ho; injection ho with hr hg; exact hg.symm)
    all_goals split at h
    all_goals try exact Option.noConfusion h
    all_goals split_ifs at h
    all_goals try (injection h with ho; injection ho with hr hg; exact hg.symm)
    all_goals try exact absurd h (vote_map_no_error _ msg g')
    all_goals
      injection h with ho
      injection ho with hr hg
      cases hr

/-- Witness for C6: a duplicate join in the lobby is denied and leaves the
state unchanged. -/
theorem c6_denied_unchanged_witness :
    addPlayer demoLobby "p1" "Q" = (false, (addPlayer demoLobby "p1" "Q").2) ∧
    (addPlayer demoLobby "p1" "Q").2 = demoLobby :=
  ⟨by decide,
   (c6_denied_unchanged demoLobby).1 "p1" "Q" (addPlayer demoLobby "p1" "Q").2 (by decide)⟩

/-! ### Claim C8 -/

/-- C8: for a participant present in the match, leave by the host succeeds
regardless of status and returns the discard signal (`true`); leave by a
non-host succeeds only in the Lobby; in any other status it returns
`false` and changes nothing. -/
theorem c8_remove_player (g : Game) (pid : String) (hin : alHas g.players pid = true) :
    (pid = g.host_id →
      removePlayer g pid = (true, { g with players := alErase g.players pid })) ∧
    (pid ≠ g.host_id → g.status = .waitingForPlayers →
      removePlayer g pid = (true, { g with players := alErase g.players pid })) ∧
    (pid ≠ g.host_id → g.status ≠ .waitingForPlayers →
      removePlayer g pid = (false, g)) := by
  have hnn : ¬ ¬ alHas g.players pid = true := fun hc => hc hin
  refine ⟨?_, ?_, ?_⟩
  · intro hh
    rw [removePlayer, if_neg hnn, if_neg (fun hc => hc.2 hh)]
  · intro hh hst
    rw [removePlayer, if_neg hnn, if_neg (fun hc => hc.1 hst)]
  · intro hh hst
    rw [removePlayer, if_neg hnn, if_pos ⟨hst, hh⟩]

/-- Witness for C8: a non-host participant cannot leave a match in
Voting; the call returns false and the state is unchanged. -/
theorem c8_remove_player_witness :
    alHas demoVoteGame.players "p2" = true ∧
    removePlayer demoVoteGame "p2" = (false, demoVoteGame) :=
  ⟨by decide,
   (c8_remove_player demoVoteGame "p2" (by decide)).2.2 (by decide) (by decide)⟩

/-! ### Claim C7 -/

/-- Counterexample to C7 as stated: in `dupNameGame` two participants share
the name "X", the name-keyed tally recorded in results collapses their
entries, and the recorded counts sum to 2 while 3 participants are present
at resolution time. -/
theorem c7_counterexample :
    (processVotes dupNameGame).map
        (fun rg => ((rg.1.votes_tally.map (·.2)).sum, rg.2.players.length)) =
      some (2, 3) ∧ (2 : Nat) ≠ 3 := by
  constructor
  · decide
  · decide

/-- C7 (amended): provided participant names are pairwise distinct and none
equals the abstention label — and the dict invariants hold with every voter
and target a current participant — the sum of the tallied vote counts
recorded in results equals the participant count at resolution time. -/
theorem c7_tally_sum (g : Game) (imp : String) (ip : Player) (wp : WordPair)
    (himp : g.impostor_id = some imp) (hip : alGet g.players imp = some ip)
    (hwp : g.word_pair = some wp)
    (hndp : (alKeys g.players).Nodup)
    (hndv : (alKeys g.votes).Nodup)
    (hksub : ∀ k ∈ alKeys g.votes, k ∈ alKeys g.players)
    (htgtp : ∀ t ∈ g.votes.map (·.2), t ∈ alKeys g.players)
    (hnames : (g.players.map (fun kp => kp.2.name)).Nodup)
    (hnabst : ∀ kp ∈ g.players, kp.2.name ≠ ABSTAIN) :
    ∃ res g', processVotes g = some (res, g') ∧
      (res.votes_tally.map (·.2)).sum = g.players.length := by
  have htgt : ∀ t ∈ g.votes.map (·.2), t = ABSTAIN ∨ (alGet g.players t).isSome = true := by
    intro t ht
    exact Or.inr ((alGet_isSome_iff g.players t).2 (htgtp t ht))
  obtain ⟨res, vt, heq, hvt, htally, hname, hc1, hc2, hc3⟩ :=
    processVotes_spec g imp ip wp himp hip hwp htgt
  refine ⟨res, _, heq, ?_⟩
  have hmapped : ∀ kv ∈ mkCounter (voteVals g),
      ∃ n, mappedTallyKey g.players kv.1 = some n := by
    intro kv hkv
    have hk1 : kv.1 ∈ voteVals g := by
      have : kv.1 ∈ alKeys (mkCounter (voteVals g)) := List.mem_map.2 ⟨kv, hkv, rfl⟩
      exact (mem_alKeys_mkCounter (voteVals g) kv.1).1 this
    by_cases habs : kv.1 = ABSTAIN
    · exact ⟨ABSTAIN, by rw [mappedTallyKey, if_pos habs]⟩
    · rcases mem_map_snd_fillVotes g.players g.votes kv.1 hk1 with hm | he
      · have hkmem : kv.1 ∈ alKeys g.players := htgtp kv.1 hm
        cases hg : alGet g.players kv.1 with
        | none => exact absurd ((alGet_eq_none_iff _ _).1 hg) (fun hc => hc hkmem)
        | some p => exact ⟨p.name, by rw [mappedTallyKey, if_neg habs, hg]; rfl⟩
      · exact absurd he habs
  have hinj : (mkCounter (voteVals g)).Pairwise
      (fun a b => mappedTallyKey g.players a.1 ≠ mappedTallyKey g.players b.1) := by
    have hkeynd := nodup_alKeys_mkCounter (voteVals g)
    rw [alKeys] at hkeynd
    have hpw : (mkCounter (voteVals g)).Pairwise (fun a b => a.1 ≠ b.1) :=
      List.pairwise_map.1 hkeynd
    refine List.Pairwise.imp_of_mem ?_ hpw
    intro a b hma hmb hne
    obtain ⟨na, hna⟩ := hmapped a hma
    obtain ⟨nb, hnb⟩ := hmapped b hmb
    rw [hna, hnb]
    intro hcontra
    have hnanb : na = nb := Option.some.injEq _ _ ▸ hcontra
    by_cases ha : a.1 = ABSTAIN
    · have hnaA : na = ABSTAIN := by
        rw [mappedTallyKey, if_pos ha] at hna
        exact (Option.some.injEq _ _ ▸ hna).symm
      by_cases hb : b.1 = ABSTAIN
      · exact hne (ha.trans hb.symm)
      · rw [mappedTallyKey, if_neg hb] at hnb
        cases hg : alGet g.players b.1 with
        | none => rw [hg] at hnb; cases hnb
        | some p =>
          rw [hg] at hnb
          have hpn : p.name = nb := Option.some.injEq _ _ ▸ hnb
          apply hnabst (b.1, p) (alGet_mem hg)
          rw [hpn, ← hnanb, hnaA]
    · by_cases hb : b.1 = ABSTAIN
      · have hnbA : nb = ABSTAIN := by
          rw [mappedTallyKey, if_pos hb] at hnb
          exact (Option.some.injEq _ _ ▸ hnb).symm
        rw [mappedTallyKey, if_neg ha] at hna
        cases hg : alGet g.players a.1 with
        | none => rw [hg] at hna; cases hna
        | some p =>
          rw [hg] at hna
          have hpn : p.name = na := Option.some.injEq _ _ ▸ hna
          apply hnabst (a.1, p) (alGet_mem hg)
          rw [hpn, hnanb, hnbA]
      · rw [mappedTallyKey, if_neg ha] at hna
        rw [mappedTallyKey, if_neg hb] at hnb
        cases hga : alGet g.players a.1 with
        | none => rw [hga] at hna; cases hna
        | some pa =>
          cases hgb : alGet g.players b.1 with
          | none => rw [hgb] at hnb; cases hnb
          | some pb =>
            rw [hga] at hna
            rw [hgb] at hnb
            have hpa : pa.name = na := Option.some.injEq _ _ ▸ hna
            have hpb : pb.name = nb := Option.some.injEq _ _ ▸ hnb
            have hinjon := List.inj_on_of_nodup_map hnames
            have heqe := hinjon (alGet_mem hga) (alGet_mem hgb)
              (by show pa.name = pb.name; rw [hpa, hpb, hnanb])
            have : (a.1, pa).1 = (b.1, pb).1 := congrArg Prod.fst heqe
            exact hne this
  obtain ⟨out, hout, hsum⟩ := tallyNames_sum g.players (mkCounter (voteVals g)) []
    (fun kv hkv => by
      obtain ⟨n, hn⟩ := hmapped kv hkv
      exact ⟨n, hn, by simp [alKeys]⟩)
    hinj
  have hovt : out = vt := by
    rw [hout] at hvt
    exact Option.some.injEq _ _ ▸ hvt
  have hcsum : ((mkCounter (voteVals g)).map (·.2)).sum = (voteVals g).length :=
    sum_map_mkCounter (voteVals g)
  have hflen : (voteVals g).length = g.players.length := by
    rw [voteVals, List.length_map]
    exact length_fillVotes_eq_players g.players g.votes hndp hndv hksub
  rw [htally, ← hovt, hsum]
  simp only [List.map_nil, List.sum_nil, Nat.zero_add]
  rw [hcsum, hflen]

/-- Witness for the amended C7: the demo Voting match has three
distinctly-named participants and its recorded tally sums to 3. -/
theorem c7_tally_sum_witness :
    ∃ res g', processVotes demoVoteGame = some (res, g') ∧
      (res.votes_tally.map (·.2)).sum = demoVoteGame.players.length :=
  c7_tally_sum demoVoteGame "p3" demoVoteP3 demoWordPair rfl (by decide) rfl
    (by decide) (by decide) (by decide) (by decide) (by decide) (by decide)

end ImpostorGame
